import Mathlib


/-!
Verification of the work-time tracker (`work-time.py`) against its specification.

The program is shallowly embedded:
* Python `datetime` values are `DateTime` records holding the proleptic-Gregorian
  ordinal of the calendar date (`day`, as produced by `date.toordinal()`: day 1 is
  0001-01-01) and the second-of-day (`tod`).  Subtraction and comparison of
  `datetime` values go through `toSecs`.
* The calendar conversions mirror CPython's `datetime` internals
  (`_ymd2ord` / `_ord2ymd` / `_is_leap` / `_days_before_year` /
  `_days_before_month` / `_days_in_month`), which back `strftime`/`strptime`
  and `datetime(year, month, day)` construction.
* Strings are `List Char`; Python `str.split`, `str.strip`, `int(...)`,
  f-string number formatting and the `"%H:%M"` / `"%a %d %b %y"` codecs are
  modelled character by character.
* The mutable global `time_data` is threaded explicitly; each clock operation
  returns the message it printed, the new in-memory store and whether
  `write_data` (the whole-file rewrite) was invoked.
* `datetime.now()` is an explicit `now` parameter.
-/

/-! ## Calendar arithmetic (CPython `datetime` internals) -/

/-- A calendar date as CPython's `_ord2ymd` returns it. -/
structure Ymd where
  year : Int
  month : Int
  day : Int
deriving DecidableEq, Repr


/-- CPython `_is_leap`. -/
def isLeap (y : Int) : Bool := y % 4 = 0 && (y % 100 != 0 || y % 400 = 0)


/-- CPython `_days_before_year`. -/
def daysBeforeYear (y : Int) : Int :=
  (y - 1) * 365 + (y - 1) / 4 - (y - 1) / 100 + (y - 1) / 400


/-- CPython `_DAYS_BEFORE_MONTH` table (days in a non-leap year before month `m`). -/
def dbm (m : Int) : Int :=
  if m = 1 then 0 else if m = 2 then 31 else if m = 3 then 59 else if m = 4 then 90
  else if m = 5 then 120 else if m = 6 then 151 else if m = 7 then 181 else if m = 8 then 212
  else if m = 9 then 243 else if m = 10 then 273 else if m = 11 then 304 else if m = 12 then 334
  else 0


/-- CPython `_DAYS_IN_MONTH` table (non-leap month lengths). -/
def dimNL (m : Int) : Int :=
  if m = 1 then 31 else if m = 2 then 28 else if m = 3 then 31 else if m = 4 then 30
  else if m = 5 then 31 else if m = 6 then 30 else if m = 7 then 31 else if m = 8 then 31
  else if m = 9 then 30 else if m = 10 then 31 else if m = 11 then 30 else if m = 12 then 31
  else 0


/-- CPython `_days_in_month`. -/
def daysInMonth (y m : Int) : Int := dimNL m + (if m = 2 ∧ isLeap y = true then 1 else 0)


/-- CPython `_ymd2ord`: proleptic-Gregorian ordinal of a calendar date
(0001-01-01 is ordinal 1). -/
def ymd2ord (y m d : Int) : Int :=
  daysBeforeYear y + dbm m + (if 2 < m ∧ isLeap y = true then 1 else 0) + d


/-- CPython `_ord2ymd`: calendar date of a proleptic-Gregorian ordinal. -/
def ord2ymd (n : Int) : Ymd :=
  let n0 := n - 1
  let n400 := n0 / 146097
  let r1 := n0 % 146097
  let n100 := r1 / 36524
  let r2 := r1 % 36524
  let n4 := r2 / 1461
  let r3 := r2 % 1461
  let n1 := r3 / 365
  let rem := r3 % 365
  let year := 400 * n400 + 100 * n100 + 4 * n4 + n1 + 1
  if n1 = 4 ∨ n100 = 4 then ⟨year - 1, 12, 31⟩
  else
    let leap := n1 = 3 && (n4 != 24 || n100 = 3)
    let month := (rem + 50) / 32
    let preceding := dbm month + (if 2 < month ∧ leap = true then 1 else 0)
    if rem < preceding then
      ⟨year, month - 1,
        rem - (preceding - (dimNL (month - 1) + (if month - 1 = 2 ∧ leap = true then 1 else 0))) + 1⟩
    else
      ⟨year, month, rem - preceding + 1⟩


/-! ## The data model (`TimeRow`, `TimeInterval`, `Note`) -/

/-- A Python `datetime`: the ordinal of its calendar date plus the second of day.
(`datetime.now()` has sub-minute precision, so `tod` is kept in seconds.) -/
structure DateTime where
  day : Int
  tod : Int
deriving DecidableEq, Repr


/-- Seconds since the epoch of ordinal 0; `(a - b).total_seconds()` is
`toSecs a - toSecs b`, and `datetime` comparison is comparison of `toSecs`. -/
def toSecs (t : DateTime) : Int := t.day * 86400 + t.tod


/-- `class TimeInterval`: optional `begin` and `end` datetimes. -/
structure TimeInterval where
  beginT : Option DateTime
  endT : Option DateTime
deriving DecidableEq, Repr


/-- `class Note`: text and timestamp.  The timestamp is optional because
`parse_time` returns `None` on an empty string. -/
structure Note where
  text : List Char
  time : Option DateTime
deriving DecidableEq, Repr


/-- `class TimeRow`: one day-record. -/
structure TimeRow where
  date : DateTime
  duration_minutes : Int
  intervals : List TimeInterval
  notes : List Note
deriving DecidableEq, Repr


/-- `TimeInterval.is_complete`. -/
def TimeInterval.is_complete (iv : TimeInterval) : Bool :=
  iv.beginT.isSome && iv.endT.isSome


/-- `TimeInterval.delta`.  Python computes
`int((end - begin).total_seconds() // 60)` for a closed interval,
`int((now - begin).total_seconds() // 60)` for an open interval whose begin
date equals today, and `0` otherwise; `//` is floor division and the divisor
is positive, so it is Lean's `Int` division (E-rounding). -/
def TimeInterval.delta (iv : TimeInterval) (now : DateTime) : Int :=
  match iv.beginT, iv.endT with
  | some b, some e => (toSecs e - toSecs b) / 60
  | some b, none => if b.day = now.day then (toSecs now - toSecs b) / 60 else 0
  | none, _ => 0


/-- `TimeRow.calculate_total_time`: sum of `delta()` over the intervals. -/
def TimeRow.calculate_total_time (r : TimeRow) (now : DateTime) : Int :=
  (r.intervals.map (fun iv => iv.delta now)).sum


/-- `TimeRow.is_today`. -/
def TimeRow.is_today (r : TimeRow) (now : DateTime) : Bool :=
  r.date.day == now.day


/-! ## Clock operations on the global `time_data` store -/

/-- The message a clock operation prints (or `ok`). `typeError` models the
uncaught `TypeError` Python raises when comparing a datetime with `None`. -/
inductive ClockResult where
  | ok
  | alreadyClockedIn
  | noData
  | notClockedInYet
  | alreadyClockedOut
  | invalidClockOutTime
  | typeError
deriving DecidableEq, Repr


/-- Result of a clock operation: printed outcome, new in-memory `time_data`,
and whether `write_data` rewrote the persisted store. -/
structure OpResult where
  res : ClockResult
  time_data : List TimeRow
  wrote : Bool
deriving DecidableEq, Repr


/-- `TimeRow()` built with all defaults: `date = datetime.now()`, zero minutes,
no intervals, no notes. -/
def newRow (now : DateTime) : TimeRow := ⟨now, 0, [], []⟩


/-- `get_or_create_today`: reuse the last entry when it is today's, otherwise
append a fresh `TimeRow()`. -/
def get_or_create_today (now : DateTime) (time_data : List TimeRow) : List TimeRow :=
  match time_data.getLast? with
  | some last => if last.is_today now then time_data else time_data ++ [newRow now]
  | none => time_data ++ [newRow now]


/-- The guard `len(intervals) > 0 and not intervals[-1].is_complete()`. -/
def lastOpen (ivs : List TimeInterval) : Bool :=
  match ivs.getLast? with
  | some l => !l.is_complete
  | none => false


/-- `clock_in(clock_in_time)`: `now` is `datetime.now()`. -/
def clock_in (now : DateTime) (clock_in_time : Option DateTime)
    (time_data : List TimeRow) : OpResult :=
  let td := get_or_create_today now time_data
  match td.getLast? with
  | none => ⟨.noData, td, false⟩
  | some today_entry =>
    if lastOpen today_entry.intervals then ⟨.alreadyClockedIn, td, false⟩
    else
      let t := clock_in_time.getD now
      let today2 : TimeRow := { today_entry with intervals := today_entry.intervals ++ [⟨some t, none⟩] }
      let today3 : TimeRow := { today2 with duration_minutes := today2.calculate_total_time now }
      ⟨.ok, td.dropLast ++ [today3], true⟩


/-- `clock_out(clock_out_time)`: `now` is `datetime.now()`. -/
def clock_out (now : DateTime) (clock_out_time : Option DateTime)
    (time_data : List TimeRow) : OpResult :=
  if time_data = [] then ⟨.noData, time_data, false⟩
  else
    let td := get_or_create_today now time_data
    match td.getLast? with
    | none => ⟨.noData, td, false⟩
    | some today_entry =>
      match today_entry.intervals.getLast? with
      | none => ⟨.notClockedInYet, td, false⟩
      | some last =>
        if last.is_complete then ⟨.alreadyClockedOut, td, false⟩
        else
          let t := clock_out_time.getD now
          match last.beginT with
          | none => ⟨.typeError, td, false⟩
          | some b =>
            if toSecs t < toSecs b then ⟨.invalidClockOutTime, td, false⟩
            else
              let today2 : TimeRow :=
                { today_entry with
                    intervals := today_entry.intervals.dropLast ++ [{ last with endT := some t }] }
              let today3 : TimeRow := { today2 with duration_minutes := today2.calculate_total_time now }
              ⟨.ok, td.dropLast ++ [today3], true⟩


/-! ## Week / month report walks -/

/-- The linear scan `for data in time_data: if data.date.date() == day.date()`. -/
def find_day (time_data : List TimeRow) (d : Int) : Option TimeRow :=
  time_data.find? (fun r => r.date.day == d)


/-- Outcome of a report walk: new store, accumulated total, visited day ordinals. -/
structure WalkResult where
  time_data : List TimeRow
  total : Int
  visited : List Int
deriving DecidableEq, Repr


/-- The shared per-day loop body of `show_week` and `show_month`: look the day up,
add the cached duration when found, otherwise append a placeholder `TimeRow(day)`,
and break once today's date is reached. -/
def walk_days (today : Int) : List Int → List TimeRow → Int → WalkResult
  | [], td, total => ⟨td, total, []⟩
  | d :: ds, td, total =>
    match find_day td d with
    | some row =>
      if d = today then ⟨td, total + row.duration_minutes, [d]⟩
      else
        let w := walk_days today ds td (total + row.duration_minutes)
        ⟨w.time_data, w.total, d :: w.visited⟩
    | none =>
      let td2 := td ++ [newRow ⟨d, 0⟩]
      if d = today then ⟨td2, total, [d]⟩
      else
        let w := walk_days today ds td2 total
        ⟨w.time_data, w.total, d :: w.visited⟩


/-- Ordinal of the Monday that starts week `week` of `year` under `"%Y-%W-%w"`
parsing (CPython `_strptime._calc_julian_from_U_or_W` with Monday-based weeks;
the loop index `i` maps to weekday `(i+1)%7`, i.e. to `weekStart + i`). -/
def weekStart (year week : Int) : Int :=
  let jan1 := ymd2ord year 1 1
  let fw := (jan1 + 6) % 7
  if week = 0 then jan1 - fw else jan1 + (7 - fw) % 7 + 7 * (week - 1)


/-- `show_week`: iterate `i in range(7)` over
`datetime.strptime(f"{year}-{week}-{(i+1)%7}", "%Y-%W-%w")`, which is day
`weekStart year week + i`. -/
def show_week (year week : Int) (now : DateTime) (time_data : List TimeRow) : WalkResult :=
  walk_days now.day ((List.range 7).map (fun i : Nat => weekStart year week + (i : Int))) time_data 0


/-- `show_month`: iterate `i in range(31)` over `datetime(year, month, i+1)`,
breaking at the `ValueError` raised once `i+1` exceeds the month length. -/
def show_month (year month : Int) (now : DateTime) (time_data : List TimeRow) : WalkResult :=
  walk_days now.day
    ((List.range (daysInMonth year month).toNat).map (fun i : Nat => ymd2ord year month ((i : Int) + 1)))
    time_data 0


/-! ## The `update` (recompute) operation -/

/-- The body of `update`'s loop over `time_data`.  `answers k` is the reply to
the `k`-th interactive prompt (`input()` is consulted only when the cached and
recomputed values differ and `interactive` is set). -/
def update_go (now : DateTime) (skip_whem_no_intervals interactive : Bool)
    (answers : Nat → Bool) : Nat → List TimeRow → List TimeRow
  | _, [] => []
  | k, r :: rs =>
    if r.intervals = [] ∧ skip_whem_no_intervals = true then
      r :: update_go now skip_whem_no_intervals interactive answers k rs
    else
      let fresh := r.calculate_total_time now
      if r.duration_minutes ≠ fresh then
        if interactive = true ∧ answers k ≠ true then
          r :: update_go now skip_whem_no_intervals interactive answers (k + 1) rs
        else
          { r with duration_minutes := fresh } ::
            update_go now skip_whem_no_intervals interactive answers (k + 1) rs
      else
        r :: update_go now skip_whem_no_intervals interactive answers k rs


/-- `update(skip_whem_no_intervals, interactive)`: rewrite stale cached durations
and always call `write_data` at the end (second component). -/
def update (now : DateTime) (skip_whem_no_intervals interactive : Bool)
    (answers : Nat → Bool) (time_data : List TimeRow) : List TimeRow × Bool :=
  (update_go now skip_whem_no_intervals interactive answers 0 time_data, true)


/-! ## String primitives (Python `str` operations on `List Char`) -/

/-- Whitespace for Python `str.strip()`. -/
def isSpaceChar (c : Char) : Bool :=
  c = ' ' || c = '\t' || c = '\n' || c = '\r'


/-- Python `str.strip()`. -/
def pyStrip (s : List Char) : List Char :=
  ((s.dropWhile isSpaceChar).reverse.dropWhile isSpaceChar).reverse


/-- Python `str.split(sep)` for the separator `c :: cs`: non-overlapping,
leftmost-first, keeping empty fragments. -/
def splitSep (c : Char) (cs : List Char) : List Char → List (List Char)
  | [] => [[]]
  | x :: rest =>
    if x = c ∧ cs.isPrefixOf rest = true then
      [] :: splitSep c cs (rest.drop cs.length)
    else
      match splitSep c cs rest with
      | [] => [[x]]
      | p :: ps => (x :: p) :: ps
termination_by s => s.length
decreasing_by
  · simp only [List.length_drop, List.length_cons]
    omega
  · simp only [List.length_cons]
    omega


/-- ASCII decimal digit test. -/
def isDigitChar (c : Char) : Bool := 48 ≤ c.toNat && c.toNat ≤ 57


/-- Value of an ASCII digit. -/
def digToNat (c : Char) : Nat := c.toNat - 48


/-- Decimal value of a nonempty all-digit string. -/
def parseNatChars (s : List Char) : Option Nat :=
  if s ≠ [] ∧ s.all isDigitChar = true then
    some (s.foldl (fun a c => 10 * a + digToNat c) 0)
  else none


/-- Python `int(s)`: strip whitespace, optional sign, decimal digits. -/
def pyInt (s : List Char) : Option Int :=
  match pyStrip s with
  | [] => none
  | c :: rest =>
    if c = '-' then (parseNatChars rest).map (fun n => -(n : Int))
    else if c = '+' then (parseNatChars rest).map (fun n => (n : Int))
    else (parseNatChars (c :: rest)).map (fun n => (n : Int))


/-- Decimal rendering of a natural number (Python `str`/f-string). -/
def natToChars (n : Nat) : List Char :=
  if n = 0 then ['0'] else ((Nat.digits 10 n).map Nat.digitChar).reverse


/-- Decimal rendering of an integer (Python f-string `{i}`). -/
def intToChars (i : Int) : List Char :=
  if i < 0 then '-' :: natToChars (-i).toNat else natToChars i.toNat


/-- Python f-string `{i:02d}` for the non-negative values this program formats. -/
def pad2 (i : Int) : List Char :=
  if 0 ≤ i ∧ i < 10 then '0' :: natToChars i.toNat else intToChars i


/-! ## Time and date codecs -/

/-- `format_minutes(minutes, leading_zeroes)`: `hours = minutes // 60`,
`minutes % 60`, rendered `H:MM` (or `HH:MM`). -/
def format_minutes (m : Int) (leading_zeroes : Bool) : List Char :=
  let hours := m / 60
  let mins := m % 60
  if leading_zeroes then pad2 hours ++ ':' :: pad2 mins
  else intToChars hours ++ ':' :: pad2 mins


/-- Error class of a failed parse: an uncaught `IndexError`, an uncaught
`ValueError`, or a diagnostic followed by `sys.exit(1)`. -/
inductive PErr where
  | indexError
  | valueError
  | exitError
deriving DecidableEq, Repr


/-- `to_minutes(time)`: `time.split(":")`, then `int(time[0]) * 60 + int(time[1])`
(a missing second chunk is an `IndexError`, a non-integer chunk a `ValueError`). -/
def to_minutes (s : List Char) : Except PErr Int :=
  match splitSep ':' [] s with
  | [] => .error .indexError
  | p0 :: rest =>
    match pyInt p0 with
    | none => .error .valueError
    | some h =>
      match rest with
      | [] => .error .indexError
      | p1 :: _ =>
        match pyInt p1 with
        | none => .error .valueError
        | some m => .ok (h * 60 + m)


/-- `format_time(datatime)`: `strftime("%H:%M")`. -/
def format_time (t : DateTime) : List Char :=
  pad2 (t.tod / 3600) ++ ':' :: pad2 (t.tod % 3600 / 60)


/-- `strptime(time, "%H:%M")`: two `':'`-separated chunks of one or two digits
whose values are a valid hour and minute. -/
def parseHM (s : List Char) : Option (Int × Int) :=
  match splitSep ':' [] s with
  | [a, b] =>
    if a ≠ [] ∧ a.length ≤ 2 ∧ a.all isDigitChar = true ∧
        b ≠ [] ∧ b.length ≤ 2 ∧ b.all isDigitChar = true then
      let h : Int := (a.foldl (fun x c => 10 * x + digToNat c) 0 : Nat)
      let m : Int := (b.foldl (fun x c => 10 * x + digToNat c) 0 : Nat)
      if h ≤ 23 ∧ m ≤ 59 then some (h, m) else none
    else none
  | _ => none


/-- `parse_time(time, date)`: `None` on the empty string; otherwise
`datetime.combine(date, strptime(time, "%H:%M").time())`, exiting on a bad
format. -/
def parse_time (s : List Char) (day : Int) : Except PErr (Option DateTime) :=
  if s = [] then .ok none
  else
    match parseHM s with
    | some (h, m) => .ok (some ⟨day, h * 3600 + m * 60⟩)
    | none => .error .exitError


/-- Weekday abbreviations as `strftime("%a")` renders them (C locale), indexed
by `date.weekday()` (Monday = 0). -/
def weekdayNames : List (List Char) :=
  [ "Mon".toList, "Tue".toList, "Wed".toList, "Thu".toList,
    "Fri".toList, "Sat".toList, "Sun".toList]


/-- Month abbreviations as `strftime("%b")` renders them (C locale), 0-indexed
by `month - 1`. -/
def monthAbbrs : List (List Char) :=
  [ "Jan".toList, "Feb".toList, "Mar".toList, "Apr".toList, "May".toList, "Jun".toList,
    "Jul".toList, "Aug".toList, "Sep".toList, "Oct".toList, "Nov".toList, "Dec".toList]


/-- `date.strftime("%a %d %b %y")` for the date of ordinal `z`
(`weekday() = (ordinal + 6) % 7` since ordinal 1 is a Monday). -/
def formatDate (z : Int) : List Char :=
  let c := ord2ymd z
  (weekdayNames.getD ((z + 6) % 7).toNat []) ++ ' ' :: pad2 c.day ++
    ' ' :: (monthAbbrs.getD (c.month - 1).toNat []) ++ ' ' :: pad2 (c.year % 100)


/-- `strptime`'s `%d`: one or two digits valued 1..31. -/
def parseDayField (s : List Char) : Option Int :=
  if s ≠ [] ∧ s.length ≤ 2 ∧ s.all isDigitChar = true then
    let d : Int := (s.foldl (fun x c => 10 * x + digToNat c) 0 : Nat)
    if 1 ≤ d ∧ d ≤ 31 then some d else none
  else none


/-- `strptime`'s `%b`: index of a month abbreviation, 1-based. -/
def parseMonthField (s : List Char) : Option Int :=
  match monthAbbrs.indexOf? s with
  | some i => some ((i : Int) + 1)
  | none => none


/-- `strptime`'s `%y`: exactly two digits, pivoted into 1969..2068. -/
def parseYearField (s : List Char) : Option Int :=
  if s.length = 2 ∧ s.all isDigitChar = true then
    let y2 : Int := (s.foldl (fun x c => 10 * x + digToNat c) 0 : Nat)
    if y2 ≤ 68 then some (2000 + y2) else some (1900 + y2)
  else none


/-- `strptime(s, "%d %b %y")` followed by the `datetime` constructor's
day-of-month validity check; returns the date's ordinal. -/
def parseDateShort (s : List Char) : Option Int :=
  match splitSep ' ' [] s with
  | [dd, mon, yy] =>
    match parseDayField dd, parseMonthField mon, parseYearField yy with
    | some d, some m, some y => if d ≤ daysInMonth y m then some (ymd2ord y m d) else none
    | _, _, _ => none
  | _ => none


/-- `strptime(s, "%a %d %b %y")`: the weekday token must be a valid name but
does not constrain the resulting date. -/
def parseDateLong (s : List Char) : Option Int :=
  match splitSep ' ' [] s with
  | [w, dd, mon, yy] =>
    if weekdayNames.contains w then
      match parseDayField dd, parseMonthField mon, parseYearField yy with
      | some d, some m, some y => if d ≤ daysInMonth y m then some (ymd2ord y m d) else none
      | _, _, _ => none
    else none
  | _ => none


/-- `parse_date(date)`: try the full format, fall back to `date_format[3:]`,
else print and `sys.exit(1)` (`none`). -/
def parse_date (s : List Char) : Option Int :=
  match parseDateLong s with
  | some z => some z
  | none => parseDateShort s


/-! ## Serialization (`to_csv`) and parsing (`parse_line`) -/

/-- `TimeInterval.formatted_begin` / `formatted_end`: `"??:??"` when absent. -/
def fmtEndpoint (t : Option DateTime) : List Char :=
  match t with
  | some t => format_time t
  | none => "??:??".toList


/-- `str(interval)`: `f"{formatted_begin} - {formatted_end}"`. -/
def interval_str (iv : TimeInterval) : List Char :=
  fmtEndpoint iv.beginT ++ ' ' :: '-' :: ' ' :: fmtEndpoint iv.endT


/-- `str(note)`: `f"[{format_time(self.time)}] {self.text}"` (a `None` time
would raise in Python; it renders as an empty time here and is excluded by
every hypothesis that mentions notes). -/
def note_str (nt : Note) : List Char :=
  '[' :: (match nt.time with | some t => format_time t | none => []) ++ ']' :: ' ' :: nt.text


/-- `Note(text, time)`: the constructor appends a final `'.'` when missing. -/
def mkNote (text : List Char) (time : Option DateTime) : Note :=
  ⟨if text.getLast? = some '.' then text else text ++ ['.'], time⟩


/-- Python `sep.join(parts)`. -/
def pyJoin (sep : List Char) : List (List Char) → List Char
  | [] => []
  | [p] => p
  | p :: ps => p ++ sep ++ pyJoin sep ps


/-- `TimeRow.to_csv`: date, duration (`format_minutes(·, False)`), the
`",\t"`-joined intervals and the `"\t"`-joined notes, with `";\t"` between
fields. -/
def to_csv (r : TimeRow) : List Char :=
  formatDate r.date.day ++ ';' :: '\t' :: format_minutes r.duration_minutes false ++
    ';' :: '\t' :: (pyJoin [',', '\t'] (r.intervals.map interval_str)) ++
    ';' :: '\t' :: (pyJoin ['\t'] (r.notes.map note_str))


/-- The interval loop of `parse_line`: split each fragment on `" - "`; exactly
two parts make an interval (with `"??:??"` endpoints left absent after
stripping, and `parse_time` exiting on bad times); any other arity prints a
warning and skips the fragment. -/
def parse_intervals (day : Int) : List (List Char) → Except PErr (List TimeInterval)
  | [] => .ok []
  | f :: fs =>
    match splitSep ' ' ['-', ' '] f with
    | [b0, e0] =>
      let bs := pyStrip b0
      let es := pyStrip e0
      match (if bs ≠ "??:??".toList then parse_time bs day else .ok none) with
      | .error e => .error e
      | .ok bT =>
        match (if es ≠ "??:??".toList then parse_time es day else .ok none) with
        | .error e => .error e
        | .ok eT =>
          match parse_intervals day fs with
          | .error e => .error e
          | .ok ivs => .ok (⟨bT, eT⟩ :: ivs)
    | _ => parse_intervals day fs


/-- The note loop of `parse_line`: strip each fragment, skip the empty ones,
split on `"] "` (any arity other than two is an uncaught unpack `ValueError`),
drop the leading `'['`, parse the time, and build the `Note`. -/
def parse_notes (day : Int) : List (List Char) → Except PErr (List Note)
  | [] => .ok []
  | f :: fs =>
    let fr := pyStrip f
    if fr = [] then parse_notes day fs
    else
      match splitSep ']' [' '] fr with
      | [tm, tx] =>
        match parse_time (tm.drop 1) day with
        | .error e => .error e
        | .ok t =>
          match parse_notes day fs with
          | .error e => .error e
          | .ok ns => .ok (mkNote tx t :: ns)
      | _ => .error .valueError


/-- `parse_line(line)`: strip, split on `';'`, parse the date (field 0), the
duration (field 1), the intervals (field 2) and, when a fourth field exists,
the notes.  Missing fields 1 or 2 are uncaught `IndexError`s. -/
def parse_line (line : List Char) : Except PErr TimeRow :=
  match splitSep ';' [] (pyStrip line) with
  | [] => .error .indexError
  | p0 :: rest =>
    match parse_date (pyStrip p0) with
    | none => .error .exitError
    | some z =>
      match rest with
      | [] => .error .indexError
      | p1 :: rest2 =>
        match to_minutes (pyStrip p1) with
        | .error e => .error e
        | .ok dur =>
          match rest2 with
          | [] => .error .indexError
          | p2 :: rest3 =>
            match parse_intervals z (splitSep ',' ['\t'] p2) with
            | .error e => .error e
            | .ok ivs =>
              match rest3 with
              | [] => .ok ⟨⟨z, 0⟩, dur, ivs, []⟩
              | p3 :: _ =>
                match parse_notes z (splitSep '\t' [] p3) with
                | .error e => .error e
                | .ok ns => .ok ⟨⟨z, 0⟩, dur, ivs, ns⟩


/-- The well-formedness a `TimeRow`'s intervals have when the row was built by
the program itself: endpoints live on the row's date, at a whole minute of the
day. -/
def ValidInterval (day : Int) (iv : TimeInterval) : Prop :=
  (∀ t, iv.beginT = some t → t.day = day ∧ 0 ≤ t.tod ∧ t.tod < 86400 ∧ t.tod % 60 = 0) ∧
  (∀ t, iv.endT = some t → t.day = day ∧ 0 ≤ t.tod ∧ t.tod < 86400 ∧ t.tod % 60 = 0)


/-- The well-formedness a `TimeRow`'s notes have when the row was built by the
program itself: a timestamp on the row's date, text ending in `'.'` (the `Note`
constructor guarantees this) and free of the characters the serialization
reserves. -/
def ValidNote (day : Int) (nt : Note) : Prop :=
  (∃ t, nt.time = some t ∧ t.day = day ∧ 0 ≤ t.tod ∧ t.tod < 86400 ∧ t.tod % 60 = 0) ∧
  nt.text.getLast? = some '.' ∧ ']' ∉ nt.text ∧ '\t' ∉ nt.text ∧ ';' ∉ nt.text


/-- The days a report walk prints: the given days in order, cut just after
`today` when `today` occurs (the loop `break`s after processing today). -/
def visitedDays (today : Int) : List Int → List Int
  | [] => []
  | d :: ds => if d = today then [d] else d :: visitedDays today ds


/-- A hand-written store line whose duration field is `"1:30:00"`: not of the
`H:MM` shape `strptime("%H:%M")` accepts, yet `to_minutes` (plain `int` on the
first two `':'`-chunks) accepts it. -/
def sampleDurationLine : List Char :=
  formatDate 719163 ++ ';' :: '\t' :: ('1' :: ':' :: '3' :: '0' :: ':' :: '0' :: '0' :: [])
    ++ ';' :: '\t' :: interval_str ⟨some ⟨719163, 32400⟩, some ⟨719163, 37800⟩⟩


theorem isLeap_iff (y : Int) : isLeap y = true ↔ (y % 4 = 0 ∧ (y % 100 ≠ 0 ∨ y % 400 = 0)) := by
  simp [isLeap]


theorem dby_eq (Y a b c d : Int) (hY : Y - 1 = 400 * a + 100 * b + 4 * c + d)
    (h1 : 0 ≤ b) (h2 : b ≤ 3) (h3 : 0 ≤ c) (h4 : c ≤ 24) (h5 : 0 ≤ d) (h6 : d ≤ 3) :
    daysBeforeYear Y = 146097 * a + 36524 * b + 1461 * c + 365 * d := by
  unfold daysBeforeYear
  rw [hY]
  have e4 : (400 * a + 100 * b + 4 * c + d) / 4 = 100 * a + 25 * b + c := by
    have h : 400 * a + 100 * b + 4 * c + d = d + (100 * a + 25 * b + c) * 4 := by ring
    rw [h, Int.add_mul_ediv_right _ _ (by norm_num : (4:Int) ≠ 0)]
    omega
  have e100 : (400 * a + 100 * b + 4 * c + d) / 100 = 4 * a + b := by
    have h : 400 * a + 100 * b + 4 * c + d = (4 * c + d) + (4 * a + b) * 100 := by ring
    rw [h, Int.add_mul_ediv_right _ _ (by norm_num : (100:Int) ≠ 0)]
    omega
  have e400 : (400 * a + 100 * b + 4 * c + d) / 400 = a := by
    have h : 400 * a + 100 * b + 4 * c + d = (100 * b + 4 * c + d) + a * 400 := by ring
    rw [h, Int.add_mul_ediv_right _ _ (by norm_num : (400:Int) ≠ 0)]
    omega
  rw [e4, e100, e400]
  ring


theorem leap_iff_eq (Y a b c d : Int) (hY : Y - 1 = 400 * a + 100 * b + 4 * c + d)
    (h1 : 0 ≤ b) (h2 : b ≤ 3) (h3 : 0 ≤ c) (h4 : c ≤ 24) (h5 : 0 ≤ d) (h6 : d ≤ 3) :
    (isLeap Y = true) ↔ (d = 3 ∧ (c ≠ 24 ∨ b = 3)) := by
  rw [isLeap_iff]
  omega


theorem dbm_succ (m : Int) (h1 : 2 ≤ m) (h2 : m ≤ 12) :
    dbm m = dbm (m - 1) + dimNL (m - 1) := by
  interval_cases m <;> decide


theorem month_day_valid (rem mo : Int) (L : Prop) [Decidable L]
    (h0 : 0 ≤ rem) (h1 : rem ≤ 364) (hmo : (rem + 50) / 32 = mo) :
    (rem < dbm mo + (if 2 < mo ∧ L then 1 else 0) →
      1 ≤ mo - 1 ∧ mo - 1 ≤ 12 ∧
      1 ≤ rem - ((dbm mo + (if 2 < mo ∧ L then 1 else 0)) -
            (dimNL (mo - 1) + (if mo - 1 = 2 ∧ L then 1 else 0))) + 1 ∧
      rem - ((dbm mo + (if 2 < mo ∧ L then 1 else 0)) -
            (dimNL (mo - 1) + (if mo - 1 = 2 ∧ L then 1 else 0))) + 1 ≤
        dimNL (mo - 1) + (if mo - 1 = 2 ∧ L then 1 else 0)) ∧
    (¬(rem < dbm mo + (if 2 < mo ∧ L then 1 else 0)) →
      1 ≤ mo ∧ mo ≤ 12 ∧
      1 ≤ rem - (dbm mo + (if 2 < mo ∧ L then 1 else 0)) + 1 ∧
      rem - (dbm mo + (if 2 < mo ∧ L then 1 else 0)) + 1 ≤
        dimNL mo + (if mo = 2 ∧ L then 1 else 0)) := by
  have hmo1 : 1 ≤ mo := by omega
  have hmo2 : mo ≤ 12 := by omega
  by_cases hL : L <;> interval_cases mo <;>
    simp only [dbm, dimNL, hL] <;> norm_num <;> omega


set_option maxHeartbeats 4000000 in
/-- The calendar conversions are mutually inverse, and `ord2ymd` always yields a
valid calendar date. -/
theorem ord2ymd_spec (n : Int) :
    ymd2ord (ord2ymd n).year (ord2ymd n).month (ord2ymd n).day = n ∧
    1 ≤ (ord2ymd n).month ∧ (ord2ymd n).month ≤ 12 ∧
    1 ≤ (ord2ymd n).day ∧
    (ord2ymd n).day ≤ daysInMonth (ord2ymd n).year (ord2ymd n).month := by
  unfold ord2ymd
  simp only
  obtain ⟨q400, hq400⟩ : ∃ a, (n - 1) / 146097 = a := ⟨_, rfl⟩
  obtain ⟨r1, hr1⟩ : ∃ a, (n - 1) % 146097 = a := ⟨_, rfl⟩
  rw [hq400, hr1]
  obtain ⟨q100, hq100⟩ : ∃ a, r1 / 36524 = a := ⟨_, rfl⟩
  obtain ⟨r2, hr2⟩ : ∃ a, r1 % 36524 = a := ⟨_, rfl⟩
  rw [hq100, hr2]
  obtain ⟨q4, hq4⟩ : ∃ a, r2 / 1461 = a := ⟨_, rfl⟩
  obtain ⟨r3, hr3⟩ : ∃ a, r2 % 1461 = a := ⟨_, rfl⟩
  rw [hq4, hr3]
  obtain ⟨q1, hq1⟩ : ∃ a, r3 / 365 = a := ⟨_, rfl⟩
  obtain ⟨rem, hrem⟩ : ∃ a, r3 % 365 = a := ⟨_, rfl⟩
  rw [hq1, hrem]
  by_cases hs : q1 = 4 ∨ q100 = 4
  · rw [if_pos hs]
    dsimp only
    unfold ymd2ord daysInMonth
    have e1 : dbm 12 = 334 := rfl
    have e2 : dimNL 12 = 31 := rfl
    rw [e1, e2]
    rcases hs with hs | hs
    · rw [dby_eq _ q400 q100 q4 3 (by omega) (by omega) (by omega) (by omega) (by omega)
          (by omega) (by omega)]
      have hl : isLeap (400 * q400 + 100 * q100 + 4 * q4 + q1 + 1 - 1) = true := by
        rw [leap_iff_eq _ q400 q100 q4 3 (by omega) (by omega) (by omega) (by omega) (by omega)
            (by omega) (by omega)]
        omega
      simp only [hl]
      norm_num
      omega
    · rw [dby_eq _ q400 3 24 3 (by omega) (by omega) (by omega) (by omega) (by omega)
          (by omega) (by omega)]
      have hl : isLeap (400 * q400 + 100 * q100 + 4 * q4 + q1 + 1 - 1) = true := by
        rw [leap_iff_eq _ q400 3 24 3 (by omega) (by omega) (by omega) (by omega) (by omega)
            (by omega) (by omega)]
        omega
      simp only [hl]
      norm_num
      omega
  · rw [if_neg hs]
    obtain ⟨mo, hmo⟩ : ∃ a, (rem + 50) / 32 = a := ⟨_, rfl⟩
    rw [hmo]
    have hrem0 : 0 ≤ rem := by omega
    have hrem1 : rem ≤ 364 := by omega
    have hLiff : (isLeap (400 * q400 + 100 * q100 + 4 * q4 + q1 + 1) = true)
        ↔ (q1 = 3 ∧ (q4 ≠ 24 ∨ q100 = 3)) :=
      leap_iff_eq _ q400 q100 q4 q1 (by omega) (by omega) (by omega) (by omega) (by omega)
        (by omega) (by omega)
    have hmdv := month_day_valid rem mo (q1 = 3 ∧ (q4 ≠ 24 ∨ q100 = 3)) hrem0 hrem1 hmo
    by_cases hq13 : q1 = 3 ∧ (q4 ≠ 24 ∨ q100 = 3)
    · have hbl : (decide (q1 = 3) && (q4 != 24 || decide (q100 = 3))) = true := by
        simp only [Bool.and_eq_true, Bool.or_eq_true, decide_eq_true_eq, bne_iff_ne]
        exact hq13
      have hleapT : isLeap (400 * q400 + 100 * q100 + 4 * q4 + q1 + 1) = true := hLiff.mpr hq13
      rw [hbl]
      simp only [hq13, and_true] at hmdv
      simp only [show ((true = true)) ↔ True from by simp, and_true]
      by_cases hadj : rem < dbm mo + (if 2 < mo then 1 else 0)
      · rw [if_pos hadj]
        dsimp only
        have hv := hmdv.1 hadj
        have hmo2 : 2 ≤ mo := by omega
        have hsucc := dbm_succ mo (by omega) (by omega)
        unfold ymd2ord daysInMonth
        rw [dby_eq _ q400 q100 q4 q1 (by omega) (by omega) (by omega) (by omega) (by omega)
            (by omega) (by omega)]
        simp only [hleapT, and_true]
        omega
      · rw [if_neg hadj]
        dsimp only
        have hv := hmdv.2 hadj
        unfold ymd2ord daysInMonth
        rw [dby_eq _ q400 q100 q4 q1 (by omega) (by omega) (by omega) (by omega) (by omega)
            (by omega) (by omega)]
        simp only [hleapT, and_true]
        omega
    · have hbl : (decide (q1 = 3) && (q4 != 24 || decide (q100 = 3))) = false := by
        rw [Bool.eq_false_iff]
        intro hc
        apply hq13
        simpa only [Bool.and_eq_true, Bool.or_eq_true, decide_eq_true_eq, bne_iff_ne] using hc
      have hleapF : isLeap (400 * q400 + 100 * q100 + 4 * q4 + q1 + 1) = false := by
        rw [Bool.eq_false_iff]
        intro hc
        exact hq13 (hLiff.mp hc)
      rw [hbl]
      simp only [hq13, and_false, if_false, add_zero] at hmdv
      simp only [show ((false = true)) ↔ False from by simp, and_false, if_false, add_zero]
      by_cases hadj : rem < dbm mo
      · rw [if_pos hadj]
        dsimp only
        have hv := hmdv.1 hadj
        have hmo2 : 2 ≤ mo := by omega
        have hsucc := dbm_succ mo (by omega) (by omega)
        unfold ymd2ord daysInMonth
        rw [dby_eq _ q400 q100 q4 q1 (by omega) (by omega) (by omega) (by omega) (by omega)
            (by omega) (by omega)]
        simp only [hleapF, and_false, if_false, add_zero]
        norm_num
        omega
      · rw [if_neg hadj]
        dsimp only
        have hv := hmdv.2 hadj
        unfold ymd2ord daysInMonth
        rw [dby_eq _ q400 q100 q4 q1 (by omega) (by omega) (by omega) (by omega) (by omega)
            (by omega) (by omega)]
        simp only [hleapF, and_false, if_false, add_zero]
        norm_num
        omega


/-! ## Lemmas about the string primitives -/

theorem splitSep_nil (c : Char) (cs : List Char) : splitSep c cs [] = [[]] := by
  rw [splitSep.eq_def]


theorem splitSep_cons (c : Char) (cs : List Char) (x : Char) (rest : List Char) :
    splitSep c cs (x :: rest) =
      if x = c ∧ cs.isPrefixOf rest = true then [] :: splitSep c cs (rest.drop cs.length)
      else
        match splitSep c cs rest with
        | [] => [[x]]
        | p :: ps => (x :: p) :: ps := by
  rw [splitSep.eq_def]


theorem splitSep_single (c : Char) (cs : List Char) (l : List Char)
    (h : ¬((c :: cs) <:+: l)) : splitSep c cs l = [l] := by
  induction l with
  | nil => exact splitSep_nil c cs
  | cons x xs ih =>
    rw [splitSep_cons, if_neg, ih (fun hc => h (List.infix_cons hc))]
    rintro ⟨hx, hp⟩
    subst hx
    refine h ⟨[], xs.drop cs.length, ?_⟩
    obtain ⟨t, ht⟩ := (List.isPrefixOf_iff_prefix).mp hp
    simp [← ht, List.drop_left]


theorem splitSep_append (c : Char) (cs : List Char) (a b : List Char) (ha : c ∉ a) :
    splitSep c cs (a ++ c :: (cs ++ b)) = a :: splitSep c cs b := by
  induction a with
  | nil =>
    simp only [List.nil_append]
    rw [splitSep_cons,
      if_pos ⟨rfl, (List.isPrefixOf_iff_prefix).mpr (List.prefix_append cs b)⟩,
      List.drop_left]
  | cons x a' ih =>
    have hx : x ≠ c := fun hc => ha (hc ▸ List.mem_cons_self x a')
    have ha' : c ∉ a' := fun hc => ha (List.mem_cons_of_mem x hc)
    simp only [List.cons_append]
    rw [splitSep_cons, if_neg (fun hc => hx hc.1), ih ha']


theorem splitSep_join (c : Char) (cs : List Char) :
    ∀ parts : List (List Char), parts ≠ [] → (∀ p ∈ parts, c ∉ p) →
      splitSep c cs (pyJoin (c :: cs) parts) = parts
  | [], h, _ => absurd rfl h
  | [p], _, hp => by
    show splitSep c cs p = [p]
    exact splitSep_single c cs p
      (fun hinf => hp p (List.mem_singleton_self p) (hinf.subset (List.mem_cons_self c cs)))
  | p :: q :: ps, _, hp => by
    show splitSep c cs (p ++ (c :: cs) ++ pyJoin (c :: cs) (q :: ps)) = _
    rw [List.append_assoc, List.cons_append, splitSep_append c cs p _
      (hp p (List.mem_cons_self p _)),
      splitSep_join c cs (q :: ps) (by simp) (fun x hx => hp x (List.mem_cons_of_mem p hx))]


theorem dropWhile_eq_self_of_head (p : Char → Bool) (s : List Char)
    (h : ∀ x, s.head? = some x → p x = false) : s.dropWhile p = s := by
  cases s with
  | nil => rfl
  | cons x xs => simp [List.dropWhile, h x rfl]


theorem pyStrip_eq_self (s : List Char)
    (h1 : ∀ x, s.head? = some x → isSpaceChar x = false)
    (h2 : ∀ x, s.getLast? = some x → isSpaceChar x = false) : pyStrip s = s := by
  unfold pyStrip
  rw [dropWhile_eq_self_of_head _ _ h1,
    dropWhile_eq_self_of_head _ _ (fun x hx => h2 x ((List.head?_reverse s) ▸ hx)),
    List.reverse_reverse]


theorem pyStrip_tab_cons (s : List Char)
    (h1 : ∀ x, s.head? = some x → isSpaceChar x = false)
    (h2 : ∀ x, s.getLast? = some x → isSpaceChar x = false) :
    pyStrip ('\t' :: s) = s := by
  unfold pyStrip
  have e1 : ('\t' :: s).dropWhile isSpaceChar = s.dropWhile isSpaceChar := by
    simp [List.dropWhile, isSpaceChar]
  rw [e1, dropWhile_eq_self_of_head _ _ h1,
    dropWhile_eq_self_of_head _ _ (fun x hx => h2 x ((List.head?_reverse s) ▸ hx)),
    List.reverse_reverse]


theorem pyStrip_nil : pyStrip [] = [] := rfl


/-! ## Decimal rendering and parsing round trips -/

theorem digitChar_props (d : Nat) (h : d < 10) :
    isDigitChar (Nat.digitChar d) = true ∧ digToNat (Nat.digitChar d) = d := by
  interval_cases d <;> exact ⟨rfl, rfl⟩


theorem natToChars_all_digits (n : Nat) : ∀ ch ∈ natToChars n, isDigitChar ch = true := by
  intro ch hch
  unfold natToChars at hch
  split at hch
  · simp at hch
    subst hch
    rfl
  · rw [List.mem_reverse, List.mem_map] at hch
    obtain ⟨d, hd, rfl⟩ := hch
    exact (digitChar_props d (Nat.digits_lt_base (by norm_num) hd)).1


theorem digit_not_space (ch : Char) (h : isDigitChar ch = true) : isSpaceChar ch = false := by
  by_cases h1 : ch = ' '
  · subst h1; exact absurd h (by decide)
  by_cases h2 : ch = '\t'
  · subst h2; exact absurd h (by decide)
  by_cases h3 : ch = '\n'
  · subst h3; exact absurd h (by decide)
  by_cases h4 : ch = '\r'
  · subst h4; exact absurd h (by decide)
  simp [isSpaceChar, h1, h2, h3, h4]


theorem digit_ne (ch : Char) (h : isDigitChar ch = true) (c : Char)
    (hc : isDigitChar c = false) : ch ≠ c := by
  intro he
  subst he
  rw [h] at hc
  cases hc


theorem foldl_digits_eq (L : List Nat) (hL : ∀ d ∈ L, d < 10) (acc : Nat) :
    ((L.map Nat.digitChar).reverse).foldl (fun a c => 10 * a + digToNat c) acc
      = acc * 10 ^ L.length + Nat.ofDigits 10 L := by
  induction L generalizing acc with
  | nil => simp [Nat.ofDigits]
  | cons d L ih =>
    have hd : digToNat (Nat.digitChar d) = d :=
      (digitChar_props d (hL d (List.mem_cons_self d L))).2
    simp only [List.map_cons, List.reverse_cons, List.foldl_append, List.foldl_cons,
      List.foldl_nil, ih (fun x hx => hL x (List.mem_cons_of_mem d hx)), hd,
      Nat.ofDigits_cons, List.length_cons]
    ring


theorem parseNatChars_natToChars (n : Nat) : parseNatChars (natToChars n) = some n := by
  unfold parseNatChars
  rw [if_pos]
  · congr 1
    unfold natToChars
    split
    · subst n; rfl
    · rw [foldl_digits_eq _ (fun d hd => Nat.digits_lt_base (by norm_num) hd) 0]
      simp [Nat.ofDigits_digits]
  · constructor
    · unfold natToChars
      split
      · simp
      · simp only [ne_eq, List.reverse_eq_nil_iff, List.map_eq_nil_iff]
        intro hc
        simp_all [Nat.digits_eq_nil_iff_eq_zero]
    · rw [List.all_eq_true]
      exact natToChars_all_digits n


theorem natToChars_head_digit (n : Nat) :
    ∀ x, (natToChars n).head? = some x → isDigitChar x = true := by
  intro x hx
  have hm : x ∈ natToChars n := by
    cases h : natToChars n with
    | nil => rw [h] at hx; cases hx
    | cons y ys =>
      rw [h] at hx
      simp at hx
      subst hx
      exact List.mem_cons_self _ _
  exact natToChars_all_digits n x hm


theorem natToChars_getLast_digit (n : Nat) :
    ∀ x, (natToChars n).getLast? = some x → isDigitChar x = true := by
  intro x hx
  have hm : x ∈ natToChars n := List.mem_of_mem_getLast? hx
  exact natToChars_all_digits n x hm


theorem pyStrip_natToChars (n : Nat) : pyStrip (natToChars n) = natToChars n :=
  pyStrip_eq_self _ (fun x hx => digit_not_space x (natToChars_head_digit n x hx))
    (fun x hx => digit_not_space x (natToChars_getLast_digit n x hx))


theorem pyInt_intToChars (i : Int) : pyInt (intToChars i) = some i := by
  by_cases hneg : i < 0
  · have he : intToChars i = '-' :: natToChars (-i).toNat := by
      unfold intToChars
      rw [if_pos hneg]
    have hs : pyStrip (intToChars i) = '-' :: natToChars (-i).toNat := by
      rw [he]
      apply pyStrip_eq_self
      · rintro x hx
        simp at hx
        subst hx
        rfl
      · rintro x hx
        rw [List.getLast?_cons] at hx
        rcases h : (natToChars (-i).toNat).getLast? with _ | y
        · have hnil : natToChars (-i).toNat = [] := List.getLast?_eq_none_iff.mp h
          unfold natToChars at hnil
          split at hnil <;> simp_all
        · rw [h] at hx
          simp at hx
          subst hx
          exact digit_not_space _ (natToChars_getLast_digit _ _ h)
    unfold pyInt
    rw [hs]
    dsimp only
    rw [if_pos rfl, parseNatChars_natToChars]
    simp
    omega
  · have he : intToChars i = natToChars i.toNat := by
      unfold intToChars
      rw [if_neg hneg]
    have hs : pyStrip (intToChars i) = natToChars i.toNat := by
      rw [he, pyStrip_natToChars]
    have hne : natToChars i.toNat ≠ [] := by
      unfold natToChars
      split <;> simp_all [Nat.digits_eq_nil_iff_eq_zero]
    rcases h : natToChars i.toNat with _ | ⟨x, xs⟩
    · exact absurd h hne
    · have hd : isDigitChar x = true := by
        apply natToChars_head_digit i.toNat
        rw [h]
        rfl
      unfold pyInt
      rw [hs, h]
      dsimp only
      rw [if_neg (digit_ne x hd '-' (by decide)), if_neg (digit_ne x hd '+' (by decide)), ← h,
        parseNatChars_natToChars]
      simp
      omega


theorem natToChars_ne_nil (n : Nat) : natToChars n ≠ [] := by
  unfold natToChars
  split
  · simp
  · rename_i h
    simp [Nat.digits_ne_nil_iff_ne_zero.mpr h]


theorem natToChars_length_log (n : Nat) (h : n ≠ 0) :
    (natToChars n).length = Nat.log 10 n + 1 := by
  unfold natToChars
  rw [if_neg h]
  simp [Nat.digits_len 10 n (by norm_num) h]


theorem natToChars_len_small : ∀ n : Nat, n < 100 →
    (natToChars n ≠ [] ∧ (natToChars n).length ≤ 2) ∧
    (n < 10 → (natToChars n).length = 1) ∧ (10 ≤ n → (natToChars n).length = 2) := by
  intro n hn
  refine ⟨⟨natToChars_ne_nil n, ?_⟩, ?_, ?_⟩
  · by_cases h0 : n = 0
    · subst h0
      decide
    · rw [natToChars_length_log n h0]
      have : Nat.log 10 n ≤ 1 := by
        by_contra hc
        have h2 : 2 ≤ Nat.log 10 n := by omega
        have := Nat.pow_log_le_self 10 h0
        have h100 : 10 ^ 2 ≤ 10 ^ Nat.log 10 n := Nat.pow_le_pow_right (by norm_num) h2
        omega
      omega
  · intro h10
    by_cases h0 : n = 0
    · subst h0
      decide
    · rw [natToChars_length_log n h0]
      have : Nat.log 10 n = 0 := Nat.log_eq_zero_iff.mpr (Or.inl h10)
      omega
  · intro h10
    rw [natToChars_length_log n (by omega)]
    have : Nat.log 10 n = 1 :=
      Nat.log_eq_of_pow_le_of_lt_pow (by simpa using h10) (by simpa using hn)
    omega


theorem foldl_natToChars (n : Nat) (acc : Nat) :
    (natToChars n).foldl (fun a c => 10 * a + digToNat c) acc
      = acc * 10 ^ (natToChars n).length + n := by
  unfold natToChars
  split
  · subst n
    simp [digToNat]
    ring
  · rw [foldl_digits_eq _ (fun d hd => Nat.digits_lt_base (by norm_num) hd) acc]
    simp [Nat.ofDigits_digits]


theorem pad2_of_lt_ten (i : Int) (h0 : 0 ≤ i) (h1 : i < 10) :
    pad2 i = '0' :: natToChars i.toNat := by
  unfold pad2
  rw [if_pos ⟨h0, h1⟩]


theorem pad2_of_ge_ten (i : Int) (h1 : 10 ≤ i) : pad2 i = natToChars i.toNat := by
  unfold pad2
  rw [if_neg (by omega), intToChars, if_neg (by omega)]


theorem pad2_all_digits (i : Int) (h0 : 0 ≤ i) : ∀ ch ∈ pad2 i, isDigitChar ch = true := by
  intro ch hch
  by_cases h : i < 10
  · rw [pad2_of_lt_ten i h0 h] at hch
    rw [List.mem_cons] at hch
    rcases hch with hch | hch
    · subst hch
      rfl
    · exact natToChars_all_digits _ ch hch
  · rw [pad2_of_ge_ten i (by omega)] at hch
    exact natToChars_all_digits _ ch hch


theorem pad2_spec (i : Int) (h0 : 0 ≤ i) (h1 : i < 100) :
    pad2 i ≠ [] ∧ (pad2 i).length ≤ 2 ∧
    (pad2 i).foldl (fun a c => 10 * a + digToNat c) 0 = i.toNat := by
  by_cases h : i < 10
  · rw [pad2_of_lt_ten i h0 h]
    refine ⟨by simp, ?_, ?_⟩
    · have := (natToChars_len_small i.toNat (by omega)).2.1 (by omega)
      simp [this]
    · show (natToChars i.toNat).foldl (fun a c => 10 * a + digToNat c) (10 * 0 + digToNat '0')
        = i.toNat
      have e : (10 * 0 + digToNat '0') = 0 := rfl
      rw [e, foldl_natToChars]
      simp
  · rw [pad2_of_ge_ten i (by omega)]
    refine ⟨((natToChars_len_small i.toNat (by omega)).1).1,
      ((natToChars_len_small i.toNat (by omega)).1).2, ?_⟩
    rw [foldl_natToChars]
    simp


theorem pad2_length_two (i : Int) (h0 : 0 ≤ i) (h1 : i < 100) : (pad2 i).length = 2 := by
  by_cases h : i < 10
  · rw [pad2_of_lt_ten i h0 h]
    have := (natToChars_len_small i.toNat (by omega)).2.1 (by omega)
    simp [this]
  · rw [pad2_of_ge_ten i (by omega)]
    exact (natToChars_len_small i.toNat (by omega)).2.2 (by omega)


theorem pyInt_pad2 (i : Int) (h0 : 0 ≤ i) (h1 : i < 100) : pyInt (pad2 i) = some i := by
  obtain ⟨hne, _, hval⟩ := pad2_spec i h0 h1
  have hdig := pad2_all_digits i h0
  have hstrip : pyStrip (pad2 i) = pad2 i := by
    apply pyStrip_eq_self
    · intro x hx
      exact digit_not_space x (hdig x (by
        cases h : pad2 i with
        | nil => rw [h] at hx; cases hx
        | cons y ys =>
          rw [h] at hx
          simp at hx
          subst hx
          exact List.mem_cons_self _ _))
    · intro x hx
      exact digit_not_space x (hdig x (List.mem_of_mem_getLast? hx))
  unfold pyInt
  rw [hstrip]
  cases h : pad2 i with
  | nil => exact absurd h hne
  | cons x xs =>
    have hdx : isDigitChar x = true := hdig x (h ▸ List.mem_cons_self _ _)
    dsimp only
    rw [if_neg (digit_ne x hdx '-' (by decide)), if_neg (digit_ne x hdx '+' (by decide)), ← h]
    unfold parseNatChars
    rw [if_pos ⟨hne, List.all_eq_true.mpr hdig⟩, hval]
    simp [Int.toNat_of_nonneg h0]


theorem not_mem_of_all_digits (l : List Char) (hl : ∀ ch ∈ l, isDigitChar ch = true)
    (c : Char) (hc : isDigitChar c = false) : c ∉ l := by
  intro hm
  rw [hl c hm] at hc
  cases hc


theorem not_infix_of_head_not_mem (c : Char) (cs l : List Char) (h : c ∉ l) :
    ¬((c :: cs) <:+: l) :=
  fun hinf => h (hinf.subset (List.mem_cons_self c cs))


theorem intToChars_chars (i : Int) : ∀ ch ∈ intToChars i, ch = '-' ∨ isDigitChar ch = true := by
  intro ch hch
  unfold intToChars at hch
  split at hch
  · rw [List.mem_cons] at hch
    rcases hch with hch | hch
    · exact Or.inl hch
    · exact Or.inr (natToChars_all_digits _ ch hch)
  · exact Or.inr (natToChars_all_digits _ ch hch)


theorem intToChars_not_mem (i : Int) (c : Char) (hc1 : isDigitChar c = false)
    (hc2 : c ≠ '-') : c ∉ intToChars i := by
  intro hm
  rcases intToChars_chars i c hm with h | h
  · exact hc2 h
  · rw [h] at hc1
    cases hc1


theorem pad2_not_mem (i : Int) (h0 : 0 ≤ i) (c : Char) (hc : isDigitChar c = false) :
    c ∉ pad2 i :=
  not_mem_of_all_digits _ (pad2_all_digits i h0) c hc


theorem parseHM_format_time (t : DateTime) (h0 : 0 ≤ t.tod) (h1 : t.tod < 86400) :
    parseHM (format_time t) = some (t.tod / 3600, t.tod % 3600 / 60) := by
  have hH0 : 0 ≤ t.tod / 3600 := by omega
  have hH1 : t.tod / 3600 < 100 := by omega
  have hH23 : t.tod / 3600 ≤ 23 := by omega
  have hM0 : 0 ≤ t.tod % 3600 / 60 := by omega
  have hM1 : t.tod % 3600 / 60 < 100 := by omega
  have hM59 : t.tod % 3600 / 60 ≤ 59 := by omega
  have hsplit : splitSep ':' [] (format_time t)
      = [pad2 (t.tod / 3600), pad2 (t.tod % 3600 / 60)] := by
    unfold format_time
    rw [show (pad2 (t.tod / 3600) ++ ':' :: pad2 (t.tod % 3600 / 60))
        = (pad2 (t.tod / 3600) ++ ':' :: ([] ++ pad2 (t.tod % 3600 / 60))) from rfl,
      splitSep_append ':' [] _ _ (pad2_not_mem _ hH0 ':' (by decide)),
      splitSep_single ':' [] _
        (not_infix_of_head_not_mem ':' [] _ (pad2_not_mem _ hM0 ':' (by decide)))]
  unfold parseHM
  rw [hsplit]
  dsimp only
  obtain ⟨hne1, hlen1, hval1⟩ := pad2_spec _ hH0 hH1
  obtain ⟨hne2, hlen2, hval2⟩ := pad2_spec _ hM0 hM1
  rw [if_pos ⟨hne1, hlen1, List.all_eq_true.mpr (pad2_all_digits _ hH0), hne2, hlen2,
    List.all_eq_true.mpr (pad2_all_digits _ hM0)⟩]
  rw [hval1, hval2, if_pos ⟨by omega, by omega⟩, Int.toNat_of_nonneg hH0,
    Int.toNat_of_nonneg hM0]


theorem format_time_ne_nil (t : DateTime) (h0 : 0 ≤ t.tod) (h1 : t.tod < 86400) :
    format_time t ≠ [] := by
  unfold format_time
  obtain ⟨hne, _, _⟩ := pad2_spec (t.tod / 3600) (by omega) (by omega)
  intro hc
  rw [List.append_eq_nil] at hc
  exact hne hc.1


theorem parse_time_format_time (day : Int) (t : DateTime)
    (h0 : 0 ≤ t.tod) (h1 : t.tod < 86400) (h2 : t.tod % 60 = 0) :
    parse_time (format_time t) day = .ok (some ⟨day, t.tod⟩) := by
  unfold parse_time
  rw [if_neg (format_time_ne_nil t h0 h1), parseHM_format_time t h0 h1]
  dsimp only
  have he : t.tod / 3600 * 3600 + t.tod % 3600 / 60 * 60 = t.tod := by omega
  rw [he]


theorem to_minutes_format_minutes (m : Int) :
    to_minutes (format_minutes m false) = .ok m := by
  have hm0 : (0 : Int) ≤ m % 60 := by omega
  have hm1 : m % 60 < 100 := by omega
  have hsplit : splitSep ':' [] (format_minutes m false)
      = [intToChars (m / 60), pad2 (m % 60)] := by
    unfold format_minutes
    rw [if_neg (by simp)]
    rw [show (intToChars (m / 60) ++ ':' :: pad2 (m % 60))
        = (intToChars (m / 60) ++ ':' :: ([] ++ pad2 (m % 60))) from rfl,
      splitSep_append ':' [] _ _ (intToChars_not_mem _ ':' (by decide) (by decide)),
      splitSep_single ':' [] _
        (not_infix_of_head_not_mem ':' [] _ (pad2_not_mem _ hm0 ':' (by decide)))]
  unfold to_minutes
  rw [hsplit]
  dsimp only
  rw [pyInt_intToChars, pyInt_pad2 _ hm0 hm1]
  dsimp only
  congr 1
  omega


/-! ## Date codec round trip -/

theorem wd_facts : ∀ i : Nat, i < 7 →
    (weekdayNames.getD i [] ≠ [] ∧ weekdayNames.contains (weekdayNames.getD i []) = true) ∧
    (∀ c ∈ weekdayNames.getD i [], isSpaceChar c = false ∧ c ≠ ';' ∧ c ≠ '\t' ∧ c ≠ ' ') := by
  decide


theorem mon_facts : ∀ i : Nat, i < 12 →
    (monthAbbrs.getD i [] ≠ [] ∧ monthAbbrs.indexOf? (monthAbbrs.getD i []) = some i) ∧
    (∀ c ∈ monthAbbrs.getD i [], isSpaceChar c = false ∧ c ≠ ';' ∧ c ≠ '\t' ∧ c ≠ ' ') := by
  decide


theorem dbm_dim_bounds (m : Int) (h1 : 1 ≤ m) (h2 : m ≤ 12) :
    0 ≤ dbm m ∧ dbm m ≤ 334 ∧ 1 ≤ dimNL m ∧ dimNL m ≤ 31 := by
  interval_cases m <;> decide


theorem daysInMonth_le_31 (y m : Int) (h1 : 1 ≤ m) (h2 : m ≤ 12) :
    daysInMonth y m ≤ 31 := by
  unfold daysInMonth
  by_cases hm : m = 2
  · subst hm
    have : dimNL 2 = 28 := rfl
    rw [this]
    split_ifs <;> omega
  · have := (dbm_dim_bounds m h1 h2).2.2.2
    rw [if_neg (fun hc => hm hc.1)]
    omega


theorem year_range (z : Int) (hz1 : 718798 ≤ z) (hz2 : z ≤ 755322) :
    1969 ≤ (ord2ymd z).year ∧ (ord2ymd z).year ≤ 2068 := by
  unfold ord2ymd
  simp only
  obtain ⟨q400, hq400⟩ : ∃ a, (z - 1) / 146097 = a := ⟨_, rfl⟩
  obtain ⟨r1, hr1⟩ : ∃ a, (z - 1) % 146097 = a := ⟨_, rfl⟩
  rw [hq400, hr1]
  obtain ⟨q100, hq100⟩ : ∃ a, r1 / 36524 = a := ⟨_, rfl⟩
  obtain ⟨r2, hr2⟩ : ∃ a, r1 % 36524 = a := ⟨_, rfl⟩
  rw [hq100, hr2]
  obtain ⟨q4, hq4⟩ : ∃ a, r2 / 1461 = a := ⟨_, rfl⟩
  obtain ⟨r3, hr3⟩ : ∃ a, r2 % 1461 = a := ⟨_, rfl⟩
  rw [hq4, hr3]
  obtain ⟨q1, hq1⟩ : ∃ a, r3 / 365 = a := ⟨_, rfl⟩
  obtain ⟨rem, hrem⟩ : ∃ a, r3 % 365 = a := ⟨_, rfl⟩
  rw [hq1, hrem]
  have ha45 : q400 = 4 ∨ q400 = 5 := by omega
  have hb0 : 0 ≤ q100 := by omega
  have hb4 : q100 ≤ 4 := by omega
  by_cases hs : q1 = 4 ∨ q100 = 4
  · rw [if_pos hs]
    dsimp only
    rcases ha45 with ha | ha <;> subst ha <;> interval_cases q100 <;> omega
  · rw [if_neg hs]
    by_cases hadj : rem <
        dbm ((rem + 50) / 32) +
          (if 2 < (rem + 50) / 32 ∧ (decide (q1 = 3) && (q4 != 24 || decide (q100 = 3))) = true
            then 1 else 0)
    · rw [if_pos hadj]
      dsimp only
      rcases ha45 with ha | ha <;> subst ha <;> interval_cases q100 <;> omega
    · rw [if_neg hadj]
      dsimp only
      rcases ha45 with ha | ha <;> subst ha <;> interval_cases q100 <;> omega


theorem splitSep_two (c : Char) (a b : List Char) (ha : c ∉ a) (hb : c ∉ b) :
    splitSep c [] (a ++ c :: b) = [a, b] := by
  rw [show (a ++ c :: b) = (a ++ c :: ([] ++ b)) from rfl,
    splitSep_append c [] a b ha,
    splitSep_single c [] b (not_infix_of_head_not_mem c [] b hb)]


theorem splitSep_four (c : Char) (a b d e : List Char)
    (ha : c ∉ a) (hb : c ∉ b) (hd : c ∉ d) (he : c ∉ e) :
    splitSep c [] (a ++ c :: b ++ c :: d ++ c :: e) = [a, b, d, e] := by
  have h1 : a ++ c :: b ++ c :: d ++ c :: e = a ++ c :: (b ++ c :: (d ++ c :: e)) := by
    simp [List.cons_append, List.append_assoc]
  rw [h1,
    show (a ++ c :: (b ++ c :: (d ++ c :: e)))
      = (a ++ c :: ([] ++ (b ++ c :: ([] ++ (d ++ c :: ([] ++ e)))))) from rfl,
    splitSep_append c [] a _ ha, splitSep_append c [] b _ hb, splitSep_append c [] d _ hd,
    splitSep_single c [] e (not_infix_of_head_not_mem c [] e he)]


theorem parseDayField_pad2 (d : Int) (h1 : 1 ≤ d) (h2 : d ≤ 31) :
    parseDayField (pad2 d) = some d := by
  obtain ⟨hne, hlen, hval⟩ := pad2_spec d (by omega) (by omega)
  unfold parseDayField
  rw [if_pos ⟨hne, hlen, List.all_eq_true.mpr (pad2_all_digits d (by omega))⟩, hval,
    Int.toNat_of_nonneg (by omega), if_pos ⟨h1, h2⟩]


theorem parseYearField_pad2 (y : Int) (h1 : 1969 ≤ y) (h2 : y ≤ 2068) :
    parseYearField (pad2 (y % 100)) = some y := by
  have h0 : (0:Int) ≤ y % 100 := by omega
  have h99 : y % 100 < 100 := by omega
  obtain ⟨hne, hlen, hval⟩ := pad2_spec (y % 100) h0 h99
  unfold parseYearField
  rw [if_pos ⟨pad2_length_two (y % 100) h0 h99,
    List.all_eq_true.mpr (pad2_all_digits (y % 100) h0)⟩, hval,
    Int.toNat_of_nonneg h0]
  dsimp only
  split_ifs with hp
  · congr 1
    omega
  · congr 1
    omega


theorem parse_date_formatDate (z : Int) (hz1 : 718798 ≤ z) (hz2 : z ≤ 755322) :
    parse_date (formatDate z) = some z := by
  obtain ⟨hord, hm1, hm2, hd1, hd2⟩ := ord2ymd_spec z
  obtain ⟨hy1, hy2⟩ := year_range z hz1 hz2
  have hwidx : ((z + 6) % 7).toNat < 7 := by omega
  have hmidx : ((ord2ymd z).month - 1).toNat < 12 := by omega
  obtain ⟨⟨hwne, hwcont⟩, hwchars⟩ := wd_facts _ hwidx
  obtain ⟨⟨hmne, hmidxof⟩, hmchars⟩ := mon_facts _ hmidx
  have hd31 : (ord2ymd z).day ≤ 31 :=
    le_trans hd2 (daysInMonth_le_31 (ord2ymd z).year (ord2ymd z).month hm1 hm2)
  have hsplit : splitSep ' ' [] (formatDate z)
      = [weekdayNames.getD ((z + 6) % 7).toNat [], pad2 (ord2ymd z).day,
         monthAbbrs.getD ((ord2ymd z).month - 1).toNat [], pad2 ((ord2ymd z).year % 100)] := by
    unfold formatDate
    exact splitSep_four ' ' _ _ _ _
      (fun hc => ((hwchars _ hc).2.2.2) rfl)
      (pad2_not_mem _ (by omega) ' ' (by decide))
      (fun hc => ((hmchars _ hc).2.2.2) rfl)
      (pad2_not_mem _ (by omega) ' ' (by decide))
  unfold parse_date parseDateLong
  rw [hsplit]
  dsimp only
  rw [if_pos hwcont, parseDayField_pad2 _ hd1 hd31,
    parseYearField_pad2 _ hy1 hy2]
  unfold parseMonthField
  rw [hmidxof]
  dsimp only
  have hmonth : (((ord2ymd z).month - 1).toNat : Int) + 1 = (ord2ymd z).month := by omega
  rw [hmonth, if_pos hd2, hord]


/-! ## Fragment-level round trips (intervals and notes) -/

theorem mem_of_head? {l : List Char} {x : Char} (h : l.head? = some x) : x ∈ l := by
  cases l with
  | nil => cases h
  | cons y ys =>
    simp at h
    subst h
    exact List.mem_cons_self _ _


theorem pad2_head_digit (i : Int) (h0 : 0 ≤ i) :
    ∀ x, (pad2 i).head? = some x → isDigitChar x = true :=
  fun x hx => pad2_all_digits i h0 x (mem_of_head? hx)


theorem format_time_chars (t : DateTime) (h0 : 0 ≤ t.tod) :
    ∀ ch ∈ format_time t, isDigitChar ch = true ∨ ch = ':' := by
  intro ch hch
  unfold format_time at hch
  rw [List.mem_append, List.mem_cons] at hch
  rcases hch with hch | hch | hch
  · exact Or.inl (pad2_all_digits _ (by omega) ch hch)
  · exact Or.inr hch
  · exact Or.inl (pad2_all_digits _ (by omega) ch hch)


theorem format_time_not_mem (t : DateTime) (h0 : 0 ≤ t.tod) (c : Char)
    (hc1 : isDigitChar c = false) (hc2 : c ≠ ':') : c ∉ format_time t := by
  intro hm
  rcases format_time_chars t h0 c hm with h | h
  · rw [h] at hc1
    cases hc1
  · exact hc2 h


theorem format_time_head_digit (t : DateTime) (h0 : 0 ≤ t.tod) (h1 : t.tod < 86400) :
    ∀ x, (format_time t).head? = some x → isDigitChar x = true := by
  intro x hx
  unfold format_time at hx
  obtain ⟨hne, _, _⟩ := pad2_spec (t.tod / 3600) (by omega) (by omega)
  rw [List.head?_append_of_ne_nil _ hne] at hx
  exact pad2_head_digit _ (by omega) x hx


theorem fmtEndpoint_chars (o : Option DateTime) (h : ∀ t, o = some t → 0 ≤ t.tod) :
    ∀ ch ∈ fmtEndpoint o, isDigitChar ch = true ∨ ch = ':' ∨ ch = '?' := by
  intro ch hch
  cases o with
  | none =>
    have he : fmtEndpoint none = "??:??".toList := rfl
    rw [he] at hch
    have hq : ∀ c ∈ ("??:??".toList), isDigitChar c = true ∨ c = ':' ∨ c = '?' := by decide
    exact hq ch hch
  | some t =>
    rcases format_time_chars t (h t rfl) ch hch with h | h
    · exact Or.inl h
    · exact Or.inr (Or.inl h)


theorem not_space_of_chars (ch : Char) (h : isDigitChar ch = true ∨ ch = ':' ∨ ch = '?') :
    isSpaceChar ch = false := by
  rcases h with h | h | h
  · exact digit_not_space ch h
  · subst h
    decide
  · subst h
    decide


theorem fmtEndpoint_not_space (o : Option DateTime) (h : ∀ t, o = some t → 0 ≤ t.tod) :
    ∀ ch ∈ fmtEndpoint o, isSpaceChar ch = false :=
  fun ch hch => not_space_of_chars ch (fmtEndpoint_chars o h ch hch)


theorem fmtEndpoint_not_mem (o : Option DateTime) (h : ∀ t, o = some t → 0 ≤ t.tod)
    (c : Char) (hc1 : isDigitChar c = false) (hc2 : c ≠ ':') (hc3 : c ≠ '?') :
    c ∉ fmtEndpoint o := by
  intro hm
  rcases fmtEndpoint_chars o h c hm with h' | h' | h'
  · rw [h'] at hc1
    cases hc1
  · exact hc2 h'
  · exact hc3 h'


theorem interval_str_not_mem (iv : TimeInterval)
    (hb : ∀ t, iv.beginT = some t → 0 ≤ t.tod) (he : ∀ t, iv.endT = some t → 0 ≤ t.tod)
    (c : Char) (hc1 : isDigitChar c = false) (hc2 : c ≠ ':') (hc3 : c ≠ '?')
    (hc4 : c ≠ ' ') (hc5 : c ≠ '-') : c ∉ interval_str iv := by
  unfold interval_str
  intro hm
  rw [List.mem_append, List.mem_cons, List.mem_cons, List.mem_cons] at hm
  rcases hm with hm | hm | hm | hm
  · exact fmtEndpoint_not_mem _ hb c hc1 hc2 hc3 hm
  · exact hc4 hm
  · exact hc5 hm
  · rcases hm with hm | hm
    · exact hc4 hm
    · exact fmtEndpoint_not_mem _ he c hc1 hc2 hc3 hm


theorem pyStrip_pre_endpoint (pre : List Char) (hpre : pre = [] ∨ pre = ['\t'])
    (o : Option DateTime) (h : ∀ t, o = some t → 0 ≤ t.tod) :
    pyStrip (pre ++ fmtEndpoint o) = fmtEndpoint o := by
  have hh : ∀ x, (fmtEndpoint o).head? = some x → isSpaceChar x = false :=
    fun x hx => fmtEndpoint_not_space o h x (mem_of_head? hx)
  have hl : ∀ x, (fmtEndpoint o).getLast? = some x → isSpaceChar x = false :=
    fun x hx => fmtEndpoint_not_space o h x (List.mem_of_mem_getLast? hx)
  rcases hpre with hp | hp <;> subst hp
  · exact pyStrip_eq_self _ hh hl
  · exact pyStrip_tab_cons _ hh hl


theorem format_time_ne_qmarks (t : DateTime) (h0 : 0 ≤ t.tod) (h1 : t.tod < 86400) :
    format_time t ≠ "??:??".toList := by
  intro hc
  have hx : (format_time t).head? = some '?' := by
    rw [hc]
    rfl
  have := format_time_head_digit t h0 h1 '?' hx
  cases this


theorem splitSep_interval_str (pre : List Char) (hpre : pre = [] ∨ pre = ['\t'])
    (iv : TimeInterval)
    (hb : ∀ t, iv.beginT = some t → 0 ≤ t.tod) (he : ∀ t, iv.endT = some t → 0 ≤ t.tod) :
    splitSep ' ' ['-', ' '] (pre ++ interval_str iv)
      = [pre ++ fmtEndpoint iv.beginT, fmtEndpoint iv.endT] := by
  have hsh : pre ++ interval_str iv
      = (pre ++ fmtEndpoint iv.beginT) ++ ' ' :: (['-', ' '] ++ fmtEndpoint iv.endT) := by
    unfold interval_str
    simp [List.append_assoc]
  rw [hsh, splitSep_append ' ' ['-', ' '] _ _ (by
    intro hm
    rw [List.mem_append] at hm
    rcases hm with hm | hm
    · rcases hpre with hp | hp <;> subst hp
      · cases hm
      · simp at hm
    · have := fmtEndpoint_not_space _ hb ' ' hm
      cases this),
    splitSep_single ' ' ['-', ' '] _ (not_infix_of_head_not_mem _ _ _ (by
      intro hm
      have := fmtEndpoint_not_space _ he ' ' hm
      cases this))]


theorem parse_interval_fragment (day : Int) (pre : List Char) (hpre : pre = [] ∨ pre = ['\t'])
    (iv : TimeInterval)
    (hb : ∀ t, iv.beginT = some t → t.day = day ∧ 0 ≤ t.tod ∧ t.tod < 86400 ∧ t.tod % 60 = 0)
    (he : ∀ t, iv.endT = some t → t.day = day ∧ 0 ≤ t.tod ∧ t.tod < 86400 ∧ t.tod % 60 = 0)
    (fs : List (List Char)) :
    parse_intervals day ((pre ++ interval_str iv) :: fs)
      = match parse_intervals day fs with
        | .error e => .error e
        | .ok ivs => .ok (iv :: ivs) := by
  have hb' : ∀ t, iv.beginT = some t → 0 ≤ t.tod := fun t ht => (hb t ht).2.1
  have he' : ∀ t, iv.endT = some t → 0 ≤ t.tod := fun t ht => (he t ht).2.1
  have hbT : (if pyStrip (pre ++ fmtEndpoint iv.beginT) ≠ "??:??".toList
      then parse_time (pyStrip (pre ++ fmtEndpoint iv.beginT)) day
      else Except.ok none) = Except.ok iv.beginT := by
    rw [pyStrip_pre_endpoint pre hpre _ hb']
    cases hob : iv.beginT with
    | none =>
      rw [if_neg (by simp [fmtEndpoint])]
    | some t =>
      obtain ⟨_, ht0, ht1, ht2⟩ := hb t hob
      have hfe : fmtEndpoint (some t) = format_time t := rfl
      rw [hfe, if_pos (format_time_ne_qmarks t ht0 ht1), parse_time_format_time day t ht0 ht1 ht2]
      congr 1
      congr 1
      obtain ⟨d, td⟩ := t
      simp at ht2 ⊢
      exact ((hb _ hob).1).symm
  have heT : (if pyStrip (fmtEndpoint iv.endT) ≠ "??:??".toList
      then parse_time (pyStrip (fmtEndpoint iv.endT)) day
      else Except.ok none) = Except.ok iv.endT := by
    rw [show pyStrip (fmtEndpoint iv.endT) = [] ++ pyStrip (fmtEndpoint iv.endT) from rfl,
      show ([] : List Char) ++ pyStrip (fmtEndpoint iv.endT)
        = pyStrip ([] ++ fmtEndpoint iv.endT) from rfl,
      pyStrip_pre_endpoint [] (Or.inl rfl) _ he']
    cases hoe : iv.endT with
    | none =>
      rw [if_neg (by simp [fmtEndpoint])]
    | some t =>
      obtain ⟨_, ht0, ht1, ht2⟩ := he t hoe
      have hfe : fmtEndpoint (some t) = format_time t := rfl
      rw [hfe, if_pos (format_time_ne_qmarks t ht0 ht1), parse_time_format_time day t ht0 ht1 ht2]
      congr 1
      congr 1
      obtain ⟨d, td⟩ := t
      simp at ht2 ⊢
      exact ((he _ hoe).1).symm
  rw [parse_intervals, splitSep_interval_str pre hpre iv hb' he']
  dsimp only
  rw [hbT]
  dsimp only
  rw [heT]


theorem parse_intervals_map (day : Int) (ivs : List TimeInterval)
    (hv : ∀ iv ∈ ivs,
      (∀ t, iv.beginT = some t → t.day = day ∧ 0 ≤ t.tod ∧ t.tod < 86400 ∧ t.tod % 60 = 0) ∧
      (∀ t, iv.endT = some t → t.day = day ∧ 0 ≤ t.tod ∧ t.tod < 86400 ∧ t.tod % 60 = 0)) :
    parse_intervals day (ivs.map interval_str) = .ok ivs := by
  induction ivs with
  | nil => rfl
  | cons iv rest ih =>
    have h1 := hv iv (List.mem_cons_self _ _)
    rw [List.map_cons, show interval_str iv = [] ++ interval_str iv from rfl,
      parse_interval_fragment day [] (Or.inl rfl) iv h1.1 h1.2,
      ih (fun x hx => hv x (List.mem_cons_of_mem _ hx))]


theorem tab_cons_pyJoin (sep : List Char) (f : List Char) (fs : List (List Char)) :
    '\t' :: pyJoin sep (f :: fs) = pyJoin sep (('\t' :: f) :: fs) := by
  cases fs with
  | nil => rfl
  | cons g gs =>
    show '\t' :: (f ++ sep ++ pyJoin sep (g :: gs))
      = ('\t' :: f) ++ sep ++ pyJoin sep (g :: gs)
    simp


theorem parse_intervals_field (day : Int) (ivs : List TimeInterval)
    (hv : ∀ iv ∈ ivs,
      (∀ t, iv.beginT = some t → t.day = day ∧ 0 ≤ t.tod ∧ t.tod < 86400 ∧ t.tod % 60 = 0) ∧
      (∀ t, iv.endT = some t → t.day = day ∧ 0 ≤ t.tod ∧ t.tod < 86400 ∧ t.tod % 60 = 0)) :
    parse_intervals day (splitSep ',' ['\t'] ('\t' :: pyJoin [',', '\t'] (ivs.map interval_str)))
      = .ok ivs := by
  cases ivs with
  | nil =>
    have h1 : splitSep ',' ['\t'] ['\t'] = [['\t']] :=
      splitSep_single ',' ['\t'] ['\t'] (not_infix_of_head_not_mem ',' _ _ (by decide))
    show parse_intervals day (splitSep ',' ['\t'] ['\t']) = .ok []
    rw [h1]
    have h2 : splitSep ' ' ['-', ' '] ['\t'] = [['\t']] :=
      splitSep_single ' ' ['-', ' '] ['\t'] (not_infix_of_head_not_mem ' ' _ _ (by decide))
    rw [parse_intervals, h2]
    rfl
  | cons iv rest =>
    have h1 := hv iv (List.mem_cons_self _ _)
    have hnm : ∀ p ∈ ('\t' :: interval_str iv) :: rest.map interval_str, ',' ∉ p := by
      intro p hp
      rw [List.mem_cons] at hp
      rcases hp with hp | hp
      · subst hp
        intro hm
        rw [List.mem_cons] at hm
        rcases hm with hm | hm
        · cases hm
        · exact interval_str_not_mem iv (fun t ht => (h1.1 t ht).2.1)
            (fun t ht => (h1.2 t ht).2.1) ',' (by decide) (by decide) (by decide) (by decide)
            (by decide) hm
      · rw [List.mem_map] at hp
        obtain ⟨x, hx, rfl⟩ := hp
        have hx' := hv x (List.mem_cons_of_mem _ hx)
        exact interval_str_not_mem x (fun t ht => (hx'.1 t ht).2.1)
          (fun t ht => (hx'.2 t ht).2.1) ',' (by decide) (by decide) (by decide) (by decide)
          (by decide)
    rw [List.map_cons, tab_cons_pyJoin, splitSep_join ',' ['\t'] _ (by simp) hnm,
      show ('\t' :: interval_str iv) = ['\t'] ++ interval_str iv from rfl,
      parse_interval_fragment day ['\t'] (Or.inr rfl) iv h1.1 h1.2,
      parse_intervals_map day rest (fun x hx => hv x (List.mem_cons_of_mem _ hx))]


theorem note_str_some (nt : Note) (t : DateTime) (ht : nt.time = some t) :
    note_str nt = '[' :: format_time t ++ ']' :: ' ' :: nt.text := by
  unfold note_str
  rw [ht]


theorem note_str_not_mem (nt : Note) (t : DateTime) (ht : nt.time = some t) (h0 : 0 ≤ t.tod)
    (c : Char) (hc1 : isDigitChar c = false) (hc2 : c ≠ ':') (hc3 : c ≠ '[') (hc4 : c ≠ ']')
    (hc5 : c ≠ ' ') (hc6 : c ∉ nt.text) : c ∉ note_str nt := by
  rw [note_str_some nt t ht]
  intro hm
  simp only [List.mem_cons, List.mem_append] at hm
  rcases hm with (hm | hm) | hm | hm | hm
  · exact hc3 hm
  · exact format_time_not_mem t h0 c hc1 hc2 hm
  · exact hc4 hm
  · exact hc5 hm
  · exact hc6 hm


theorem pyStrip_pre_note (pre : List Char) (hpre : pre = [] ∨ pre = ['\t'])
    (nt : Note) (t : DateTime) (ht : nt.time = some t)
    (htx : nt.text.getLast? = some '.') :
    pyStrip (pre ++ note_str nt) = note_str nt := by
  have htxne : nt.text ≠ [] := by
    intro hc
    rw [hc] at htx
    cases htx
  have hshape : note_str nt = ('[' :: format_time t ++ [']', ' ']) ++ nt.text := by
    rw [note_str_some nt t ht, List.append_assoc]
    rfl
  have hh : ∀ x, (note_str nt).head? = some x → isSpaceChar x = false := by
    intro x hx
    have hx' : x = '[' := by
      rw [note_str_some nt t ht,
        List.head?_append_of_ne_nil _ (List.cons_ne_nil '[' (format_time t)),
        List.head?_cons] at hx
      injection hx with h
      exact h.symm
    subst hx'
    decide
  have hl : ∀ x, (note_str nt).getLast? = some x → isSpaceChar x = false := by
    intro x hx
    rw [hshape, List.getLast?_append_of_ne_nil _ htxne, htx] at hx
    injection hx with h
    subst h
    decide
  rcases hpre with hp | hp <;> subst hp
  · exact pyStrip_eq_self _ hh hl
  · exact pyStrip_tab_cons _ hh hl


theorem splitSep_note_str (nt : Note) (t : DateTime) (ht : nt.time = some t) (h0 : 0 ≤ t.tod)
    (htx2 : ']' ∉ nt.text) :
    splitSep ']' [' '] (note_str nt) = ['[' :: format_time t, nt.text] := by
  rw [note_str_some nt t ht,
    show ('[' :: format_time t ++ ']' :: ' ' :: nt.text)
      = ('[' :: format_time t) ++ ']' :: ([' '] ++ nt.text) from rfl,
    splitSep_append ']' [' '] _ _ (by
      intro hm
      rw [List.mem_cons] at hm
      rcases hm with hm | hm
      · exact absurd hm (by decide)
      · exact format_time_not_mem t h0 ']' (by decide) (by decide) hm),
    splitSep_single ']' [' '] _ (not_infix_of_head_not_mem ']' [' '] _ htx2)]


theorem parse_note_fragment (day : Int) (pre : List Char) (hpre : pre = [] ∨ pre = ['\t'])
    (nt : Note) (t : DateTime) (ht : nt.time = some t) (htd : t.day = day)
    (h0 : 0 ≤ t.tod) (h1 : t.tod < 86400) (h2 : t.tod % 60 = 0)
    (htx1 : nt.text.getLast? = some '.') (htx2 : ']' ∉ nt.text)
    (fs : List (List Char)) :
    parse_notes day ((pre ++ note_str nt) :: fs)
      = match parse_notes day fs with
        | .error e => .error e
        | .ok ns => .ok (nt :: ns) := by
  have hne : note_str nt ≠ [] := by
    rw [note_str_some nt t ht]
    exact List.cons_ne_nil _ _
  rw [parse_notes, pyStrip_pre_note pre hpre nt t ht htx1]
  rw [if_neg hne, splitSep_note_str nt t ht h0 htx2]
  dsimp only
  rw [show (('[' :: format_time t).drop 1) = format_time t from rfl,
    parse_time_format_time day t h0 h1 h2]
  dsimp only
  have hmk : mkNote nt.text (some ⟨day, t.tod⟩) = nt := by
    unfold mkNote
    rw [if_pos htx1]
    have he : (⟨day, t.tod⟩ : DateTime) = t := by
      obtain ⟨d, td⟩ := t
      simp at htd ⊢
      exact htd.symm
    rw [he, ← ht]
  rw [hmk]


theorem parse_notes_map (day : Int) (ns : List Note)
    (hv : ∀ nt ∈ ns, ∃ t, nt.time = some t ∧ t.day = day ∧ 0 ≤ t.tod ∧ t.tod < 86400 ∧
      t.tod % 60 = 0 ∧ nt.text.getLast? = some '.' ∧ ']' ∉ nt.text) :
    parse_notes day (ns.map note_str) = .ok ns := by
  induction ns with
  | nil => rfl
  | cons nt rest ih =>
    obtain ⟨t, ht, htd, h0, h1, h2, hg1, hg2⟩ := hv nt (List.mem_cons_self _ _)
    rw [List.map_cons, show note_str nt = [] ++ note_str nt from rfl,
      parse_note_fragment day [] (Or.inl rfl) nt t ht htd h0 h1 h2 hg1 hg2,
      ih (fun x hx => hv x (List.mem_cons_of_mem _ hx))]


theorem tab_split_cons (rest : List Char) :
    splitSep '\t' [] ('\t' :: rest) = [] :: splitSep '\t' [] rest := by
  rw [splitSep_cons, if_pos ⟨rfl, List.isPrefixOf_iff_prefix.mpr List.nil_prefix⟩]
  rfl


theorem parse_notes_field (day : Int) (ns : List Note)
    (hv : ∀ nt ∈ ns, ∃ t, nt.time = some t ∧ t.day = day ∧ 0 ≤ t.tod ∧ t.tod < 86400 ∧
      t.tod % 60 = 0 ∧ nt.text.getLast? = some '.' ∧ ']' ∉ nt.text ∧ '\t' ∉ nt.text)
    (hne : ns ≠ []) :
    parse_notes day (splitSep '\t' [] ('\t' :: pyJoin ['\t'] (ns.map note_str))) = .ok ns := by
  have hnm : ∀ p ∈ ns.map note_str, '\t' ∉ p := by
    intro p hp
    rw [List.mem_map] at hp
    obtain ⟨x, hx, rfl⟩ := hp
    obtain ⟨t, ht, _, h0, _, _, _, _, htab⟩ := hv x hx
    exact note_str_not_mem x t ht h0 '\t' (by decide) (by decide) (by decide) (by decide)
      (by decide) htab
  rw [tab_split_cons, splitSep_join '\t' [] _ (by
      cases ns with
      | nil => exact absurd rfl hne
      | cons a l => simp) hnm,
    show parse_notes day ([] :: ns.map note_str) = parse_notes day (ns.map note_str) from rfl]
  exact parse_notes_map day ns (fun x hx => by
    obtain ⟨t, ht, htd, h0, h1, h2, hg1, hg2, _⟩ := hv x hx
    exact ⟨t, ht, htd, h0, h1, h2, hg1, hg2⟩)


/-! ## Shape of `to_csv` under strip and split -/

theorem pyJoin_mem (sep : List Char) (c : Char) :
    ∀ ps : List (List Char), c ∈ pyJoin sep ps → c ∈ sep ∨ ∃ p ∈ ps, c ∈ p
  | [], h => by cases h
  | [p], h => Or.inr ⟨p, List.mem_singleton_self p, h⟩
  | p :: q :: ps, h => by
    have h' : c ∈ (p ++ sep) ++ pyJoin sep (q :: ps) := h
    rw [List.mem_append, List.mem_append] at h'
    rcases h' with (h' | h') | h'
    · exact Or.inr ⟨p, List.mem_cons_self _ _, h'⟩
    · exact Or.inl h'
    · rcases pyJoin_mem sep c (q :: ps) h' with h'' | ⟨x, hx, hcx⟩
      · exact Or.inl h''
      · exact Or.inr ⟨x, List.mem_cons_of_mem _ hx, hcx⟩


theorem pyJoin_getLast (sep l : List Char) (hl : l ≠ []) :
    ∀ ps : List (List Char), (pyJoin sep (ps ++ [l])).getLast? = l.getLast?
  | [] => rfl
  | p :: ps => by
    have ih := pyJoin_getLast sep l hl ps
    have hne : pyJoin sep (ps ++ [l]) ≠ [] := by
      intro hc
      rw [hc] at ih
      exact hl (List.getLast?_eq_none_iff.mp ih.symm)
    have hexp : pyJoin sep ((p :: ps) ++ [l]) = (p ++ sep) ++ pyJoin sep (ps ++ [l]) := by
      cases ps with
      | nil => rfl
      | cons q qs => rfl
    rw [hexp, List.getLast?_append_of_ne_nil _ hne, ih]


theorem note_str_getLast (nt : Note) (t : DateTime) (ht : nt.time = some t)
    (htx : nt.text.getLast? = some '.') : (note_str nt).getLast? = some '.' := by
  have htxne : nt.text ≠ [] := by
    intro hc
    rw [hc] at htx
    cases htx
  rw [note_str_some nt t ht,
    List.getLast?_append_of_ne_nil _ (List.cons_ne_nil ']' (' ' :: nt.text)),
    show (']' :: ' ' :: nt.text) = [']', ' '] ++ nt.text from rfl,
    List.getLast?_append_of_ne_nil _ htxne, htx]


theorem pyStrip_concat_tab (b : List Char) (hbne : b ≠ [])
    (h1 : ∀ x, b.head? = some x → isSpaceChar x = false)
    (h2 : ∀ x, b.getLast? = some x → isSpaceChar x = false) :
    pyStrip (b ++ ['\t']) = b := by
  unfold pyStrip
  have e1 : (b ++ ['\t']).dropWhile isSpaceChar = b ++ ['\t'] :=
    dropWhile_eq_self_of_head _ _ (fun x hx =>
      h1 x (by rwa [List.head?_append_of_ne_nil _ hbne] at hx))
  rw [e1, show (b ++ ['\t']).reverse = '\t' :: b.reverse by simp]
  have e2 : ('\t' :: b.reverse).dropWhile isSpaceChar = b.reverse.dropWhile isSpaceChar := by
    simp [List.dropWhile, isSpaceChar]
  rw [e2, dropWhile_eq_self_of_head _ _ (fun x hx => h2 x ((List.head?_reverse b) ▸ hx)),
    List.reverse_reverse]


theorem format_minutes_false (m : Int) :
    format_minutes m false = intToChars (m / 60) ++ ':' :: pad2 (m % 60) := rfl


theorem format_minutes_not_mem (m : Int) (c : Char) (h1 : isDigitChar c = false)
    (h2 : c ≠ '-') (h3 : c ≠ ':') : c ∉ format_minutes m false := by
  rw [format_minutes_false]
  intro hm
  rw [List.mem_append, List.mem_cons] at hm
  rcases hm with hm | hm | hm
  · exact intToChars_not_mem _ c h1 h2 hm
  · exact h3 hm
  · exact pad2_not_mem _ (by omega) c h1 hm


theorem intToChars_ne_nil (i : Int) : intToChars i ≠ [] := by
  unfold intToChars
  split_ifs
  · exact List.cons_ne_nil _ _
  · exact natToChars_ne_nil _


theorem intToChars_head (i : Int) :
    ∀ x, (intToChars i).head? = some x → isSpaceChar x = false := by
  intro x hx
  unfold intToChars at hx
  split_ifs at hx with h
  · rw [List.head?_cons] at hx
    injection hx with hx'
    subst hx'
    decide
  · exact digit_not_space x (natToChars_head_digit _ x hx)


theorem format_minutes_strip (m : Int) :
    pyStrip ('\t' :: format_minutes m false) = format_minutes m false := by
  have hp2ne : pad2 (m % 60) ≠ [] := (pad2_spec (m % 60) (by omega) (by omega)).1
  apply pyStrip_tab_cons
  · intro x hx
    rw [format_minutes_false, List.head?_append_of_ne_nil _ (intToChars_ne_nil (m / 60))] at hx
    exact intToChars_head _ x hx
  · intro x hx
    rw [format_minutes_false,
      List.getLast?_append_of_ne_nil _ (List.cons_ne_nil ':' (pad2 (m % 60))),
      show (':' :: pad2 (m % 60)) = [':'] ++ pad2 (m % 60) from rfl,
      List.getLast?_append_of_ne_nil _ hp2ne] at hx
    exact digit_not_space x (pad2_all_digits _ (by omega) x (List.mem_of_mem_getLast? hx))


theorem formatDate_eq (z : Int) : formatDate z
    = weekdayNames.getD ((z + 6) % 7).toNat []
      ++ ' ' :: pad2 (ord2ymd z).day
      ++ ' ' :: monthAbbrs.getD ((ord2ymd z).month - 1).toNat []
      ++ ' ' :: pad2 ((ord2ymd z).year % 100) := rfl


theorem formatDate_ne_nil (z : Int) : formatDate z ≠ [] := by
  have hwidx : ((z + 6) % 7).toNat < 7 := by omega
  obtain ⟨⟨hwne, _⟩, _⟩ := wd_facts _ hwidx
  rw [formatDate_eq]
  intro hc
  exact hwne (List.append_eq_nil.mp (List.append_eq_nil.mp (List.append_eq_nil.mp hc).1).1).1


theorem formatDate_head (z : Int) :
    ∀ x, (formatDate z).head? = some x → isSpaceChar x = false := by
  intro x hx
  have hwidx : ((z + 6) % 7).toNat < 7 := by omega
  obtain ⟨⟨hwne, _⟩, hwchars⟩ := wd_facts _ hwidx
  have hne1 : weekdayNames.getD ((z + 6) % 7).toNat [] ++ ' ' :: pad2 (ord2ymd z).day ≠ [] :=
    fun hc => hwne (List.append_eq_nil.mp hc).1
  have hne2 : (weekdayNames.getD ((z + 6) % 7).toNat [] ++ ' ' :: pad2 (ord2ymd z).day)
      ++ ' ' :: monthAbbrs.getD ((ord2ymd z).month - 1).toNat [] ≠ [] :=
    fun hc => hne1 (List.append_eq_nil.mp hc).1
  rw [formatDate_eq, List.head?_append_of_ne_nil _ hne2, List.head?_append_of_ne_nil _ hne1,
    List.head?_append_of_ne_nil _ hwne] at hx
  exact (hwchars x (mem_of_head? hx)).1


theorem formatDate_getLast (z : Int) :
    ∀ x, (formatDate z).getLast? = some x → isSpaceChar x = false := by
  intro x hx
  have hpne : pad2 ((ord2ymd z).year % 100) ≠ [] :=
    (pad2_spec ((ord2ymd z).year % 100) (by omega) (by omega)).1
  rw [formatDate_eq,
    List.getLast?_append_of_ne_nil _ (List.cons_ne_nil ' ' (pad2 ((ord2ymd z).year % 100))),
    show (' ' :: pad2 ((ord2ymd z).year % 100)) = [' '] ++ pad2 ((ord2ymd z).year % 100)
      from rfl,
    List.getLast?_append_of_ne_nil _ hpne] at hx
  exact digit_not_space x (pad2_all_digits _ (by omega) x (List.mem_of_mem_getLast? hx))


theorem pyStrip_formatDate (z : Int) : pyStrip (formatDate z) = formatDate z :=
  pyStrip_eq_self _ (formatDate_head z) (formatDate_getLast z)


theorem formatDate_chars (z : Int) :
    ∀ c ∈ formatDate z, isDigitChar c = true ∨ c = ' '
      ∨ (isSpaceChar c = false ∧ c ≠ ';' ∧ c ≠ '\t') := by
  obtain ⟨hord, hm1, hm2, hd1, hd2⟩ := ord2ymd_spec z
  have hwidx : ((z + 6) % 7).toNat < 7 := by omega
  have hmidx : ((ord2ymd z).month - 1).toNat < 12 := by omega
  obtain ⟨_, hwchars⟩ := wd_facts _ hwidx
  obtain ⟨_, hmchars⟩ := mon_facts _ hmidx
  intro c hc
  rw [formatDate_eq] at hc
  rw [List.mem_append] at hc
  rcases hc with hc | hc
  · rw [List.mem_append] at hc
    rcases hc with hc | hc
    · rw [List.mem_append] at hc
      rcases hc with hc | hc
      · exact Or.inr (Or.inr ⟨(hwchars c hc).1, (hwchars c hc).2.1, (hwchars c hc).2.2.1⟩)
      · rw [List.mem_cons] at hc
        rcases hc with hc | hc
        · exact Or.inr (Or.inl hc)
        · exact Or.inl (pad2_all_digits _ (by omega) c hc)
    · rw [List.mem_cons] at hc
      rcases hc with hc | hc
      · exact Or.inr (Or.inl hc)
      · exact Or.inr (Or.inr ⟨(hmchars c hc).1, (hmchars c hc).2.1, (hmchars c hc).2.2.1⟩)
  · rw [List.mem_cons] at hc
    rcases hc with hc | hc
    · exact Or.inr (Or.inl hc)
    · exact Or.inl (pad2_all_digits _ (by omega) c hc)


theorem formatDate_not_mem (z : Int)
    (c : Char) (h1 : isDigitChar c = false) (h2 : c ≠ ' ') (h3 : c = ';' ∨ c = '\t') :
    c ∉ formatDate z := by
  intro hm
  rcases formatDate_chars z c hm with hd | hsp | ⟨_, hs, ht⟩
  · rw [hd] at h1
    cases h1
  · exact h2 hsp
  · rcases h3 with h | h
    · exact hs h
    · exact ht h


theorem pyStrip_concat_semi_tab (X : List Char) (hXne : X ≠ [])
    (h1 : ∀ x, X.head? = some x → isSpaceChar x = false) :
    pyStrip (X ++ [';', '\t']) = X ++ [';'] := by
  have hsh : X ++ [';', '\t'] = (X ++ [';']) ++ ['\t'] := by
    rw [List.append_assoc]
    rfl
  rw [hsh]
  refine pyStrip_concat_tab (X ++ [';']) (by simp) ?_ ?_
  · intro x hx
    rw [List.head?_append_of_ne_nil _ hXne] at hx
    exact h1 x hx
  · intro x hx
    rw [List.getLast?_append_of_ne_nil _ (List.cons_ne_nil ';' [])] at hx
    injection hx with hx'
    subst hx'
    decide


theorem to_csv_head (r : TimeRow) :
    ∀ x, (to_csv r).head? = some x → isSpaceChar x = false := by
  intro x hx
  have hfdne := formatDate_ne_nil r.date.day
  have hne1 : formatDate r.date.day
      ++ ';' :: '\t' :: format_minutes r.duration_minutes false ≠ [] :=
    fun hc => hfdne (List.append_eq_nil.mp hc).1
  have hne2 : (formatDate r.date.day
      ++ ';' :: '\t' :: format_minutes r.duration_minutes false)
      ++ ';' :: '\t' :: pyJoin [',', '\t'] (r.intervals.map interval_str) ≠ [] :=
    fun hc => hne1 (List.append_eq_nil.mp hc).1
  rw [to_csv, List.head?_append_of_ne_nil _ hne2, List.head?_append_of_ne_nil _ hne1,
    List.head?_append_of_ne_nil _ hfdne] at hx
  exact formatDate_head _ x hx


theorem parse_line_to_csv (r : TimeRow)
    (hz1 : 718798 ≤ r.date.day) (hz2 : r.date.day ≤ 755322)
    (hiv : ∀ iv ∈ r.intervals, ValidInterval r.date.day iv)
    (hnt : ∀ nt ∈ r.notes, ValidNote r.date.day nt) :
    parse_line (to_csv r)
      = .ok ⟨⟨r.date.day, 0⟩, r.duration_minutes, r.intervals, r.notes⟩ := by
  have hfdnm : ';' ∉ formatDate r.date.day :=
    formatDate_not_mem _ ';' (by decide) (by decide) (Or.inl rfl)
  have hbnm : ';' ∉ '\t' :: format_minutes r.duration_minutes false := by
    intro hm
    rcases List.mem_cons.mp hm with hm | hm
    · exact absurd hm (by decide)
    · exact format_minutes_not_mem _ ';' (by decide) (by decide) (by decide) hm
  have hdnm : ';' ∉ '\t' :: pyJoin [',', '\t'] (r.intervals.map interval_str) := by
    intro hm
    rcases List.mem_cons.mp hm with hm | hm
    · exact absurd hm (by decide)
    · rcases pyJoin_mem _ ';' _ hm with h | ⟨p, hp, hcp⟩
      · exact absurd h (by decide)
      · obtain ⟨iv, hivm, rfl⟩ := List.mem_map.mp hp
        obtain ⟨hbv, hev⟩ := hiv iv hivm
        exact interval_str_not_mem iv (fun t ht => (hbv t ht).2.1) (fun t ht => (hev t ht).2.1)
          ';' (by decide) (by decide) (by decide) (by decide) (by decide) hcp
  have hps0 : pyStrip (formatDate r.date.day) = formatDate r.date.day := pyStrip_formatDate _
  by_cases hns : r.notes = []
  · have hcsv : to_csv r
        = ((formatDate r.date.day ++ ';' :: '\t' :: format_minutes r.duration_minutes false)
          ++ ';' :: '\t' :: pyJoin [',', '\t'] (r.intervals.map interval_str)) ++ [';', '\t'] := by
      unfold to_csv
      rw [hns]
      rfl
    have hstrip : pyStrip (to_csv r)
        = ((formatDate r.date.day ++ ';' :: '\t' :: format_minutes r.duration_minutes false)
          ++ ';' :: '\t' :: pyJoin [',', '\t'] (r.intervals.map interval_str)) ++ [';'] := by
      rw [hcsv]
      refine pyStrip_concat_semi_tab _
        (fun hc => formatDate_ne_nil r.date.day
          (List.append_eq_nil.mp (List.append_eq_nil.mp hc).1).1) ?_
      intro x hx
      have hne1 : formatDate r.date.day
          ++ ';' :: '\t' :: format_minutes r.duration_minutes false ≠ [] :=
        fun hc => formatDate_ne_nil _ (List.append_eq_nil.mp hc).1
      rw [List.head?_append_of_ne_nil _ hne1,
        List.head?_append_of_ne_nil _ (formatDate_ne_nil _)] at hx
      exact formatDate_head _ x hx
    have hsplit : splitSep ';' [] (pyStrip (to_csv r))
        = [formatDate r.date.day, '\t' :: format_minutes r.duration_minutes false,
           '\t' :: pyJoin [',', '\t'] (r.intervals.map interval_str), []] := by
      rw [hstrip]
      exact splitSep_four ';' _ _ _ [] hfdnm hbnm hdnm (by decide)
    unfold parse_line
    rw [hsplit]
    dsimp only
    rw [hps0, parse_date_formatDate _ hz1 hz2]
    dsimp only
    rw [format_minutes_strip, to_minutes_format_minutes]
    dsimp only
    rw [parse_intervals_field r.date.day r.intervals (fun iv h => hiv iv h)]
    dsimp only
    rw [hns, splitSep_nil]
    rfl
  · obtain ⟨L, b, hLb⟩ : ∃ L b, r.notes = L ++ [b] :=
      ⟨r.notes.dropLast, r.notes.getLast hns, (List.dropLast_append_getLast hns).symm⟩
    have hbmem : b ∈ r.notes := by
      rw [hLb]
      exact List.mem_append_right _ (List.mem_singleton_self b)
    obtain ⟨⟨t0, ht0, _, h00, _, _⟩, hbl, _, _, _⟩ := hnt b hbmem
    have hbne : note_str b ≠ [] := by
      rw [note_str_some b t0 ht0]
      simp
    have hlast : (pyJoin ['\t'] (r.notes.map note_str)).getLast? = some '.' := by
      rw [hLb, List.map_append, show (List.map note_str [b]) = [note_str b] from rfl,
        pyJoin_getLast ['\t'] (note_str b) hbne (List.map note_str L)]
      exact note_str_getLast b t0 ht0 hbl
    have hNTJne : pyJoin ['\t'] (r.notes.map note_str) ≠ [] := by
      intro hc
      rw [hc] at hlast
      cases hlast
    have hlcsv : ∀ x, (to_csv r).getLast? = some x → isSpaceChar x = false := by
      intro x hx
      rw [to_csv, List.getLast?_append_of_ne_nil _
          (List.cons_ne_nil ';' ('\t' :: pyJoin ['\t'] (r.notes.map note_str))),
        show (';' :: '\t' :: pyJoin ['\t'] (r.notes.map note_str))
          = [';', '\t'] ++ pyJoin ['\t'] (r.notes.map note_str) from rfl,
        List.getLast?_append_of_ne_nil _ hNTJne, hlast] at hx
      injection hx with hx'
      subst hx'
      decide
    have hstrip : pyStrip (to_csv r) = to_csv r :=
      pyStrip_eq_self _ (to_csv_head r) hlcsv
    have henm : ';' ∉ '\t' :: pyJoin ['\t'] (r.notes.map note_str) := by
      intro hm
      rcases List.mem_cons.mp hm with hm | hm
      · exact absurd hm (by decide)
      · rcases pyJoin_mem _ ';' _ hm with h | ⟨p, hp, hcp⟩
        · exact absurd h (by decide)
        · obtain ⟨nt, hntm, rfl⟩ := List.mem_map.mp hp
          obtain ⟨⟨t, ht, _, h0, _, _⟩, _, _, _, hsemi⟩ := hnt nt hntm
          exact note_str_not_mem nt t ht h0 ';' (by decide) (by decide) (by decide) (by decide)
            (by decide) hsemi hcp
    have hsplit : splitSep ';' [] (to_csv r)
        = [formatDate r.date.day, '\t' :: format_minutes r.duration_minutes false,
           '\t' :: pyJoin [',', '\t'] (r.intervals.map interval_str),
           '\t' :: pyJoin ['\t'] (r.notes.map note_str)] := by
      unfold to_csv
      exact splitSep_four ';' _ _ _ _ hfdnm hbnm hdnm henm
    have hv' : ∀ nt ∈ r.notes, ∃ t, nt.time = some t ∧ t.day = r.date.day ∧ 0 ≤ t.tod ∧
        t.tod < 86400 ∧ t.tod % 60 = 0 ∧ nt.text.getLast? = some '.' ∧ ']' ∉ nt.text ∧
        '\t' ∉ nt.text := by
      intro nt hm
      obtain ⟨⟨t, ht, htd, h0, h1, h2⟩, hg, hbr, htab, _⟩ := hnt nt hm
      exact ⟨t, ht, htd, h0, h1, h2, hg, hbr, htab⟩
    unfold parse_line
    rw [hstrip, hsplit]
    dsimp only
    rw [hps0, parse_date_formatDate _ hz1 hz2]
    dsimp only
    rw [format_minutes_strip, to_minutes_format_minutes]
    dsimp only
    rw [parse_intervals_field r.date.day r.intervals (fun iv h => hiv iv h)]
    dsimp only
    rw [parse_notes_field r.date.day r.notes hv' hns]


/-! ## Clock operation lemmas -/

theorem goc_cases (now : DateTime) (td : List TimeRow) :
    get_or_create_today now td = td ∨ get_or_create_today now td = td ++ [newRow now] := by
  unfold get_or_create_today
  cases h : td.getLast? with
  | none => exact Or.inr rfl
  | some last =>
    dsimp only
    split_ifs
    · exact Or.inl rfl
    · exact Or.inr rfl


theorem clock_in_fail (now : DateTime) (t : Option DateTime) (td : List TimeRow)
    (h : (clock_in now t td).res ≠ .ok) :
    (clock_in now t td).time_data = td ∧ (clock_in now t td).wrote = false := by
  unfold clock_in at h ⊢
  rcases goc_cases now td with hg | hg <;> rw [hg] at h ⊢ <;> dsimp only at h ⊢
  · cases hl : td.getLast? with
    | none =>
      rw [hl] at h
      exact ⟨rfl, rfl⟩
    | some today_entry =>
      rw [hl] at h
      dsimp only at h ⊢
      by_cases ho : lastOpen today_entry.intervals = true
      · rw [if_pos ho] at h ⊢
        exact ⟨rfl, rfl⟩
      · rw [if_neg ho] at h ⊢
        exact absurd rfl h
  · rw [List.getLast?_concat] at h ⊢
    dsimp only at h ⊢
    rw [if_neg (show ¬(lastOpen (newRow now).intervals = true)
      from fun hc => Bool.false_ne_true hc)] at h ⊢
    exact absurd rfl h


theorem clock_out_fail (now : DateTime) (t : Option DateTime) (td : List TimeRow)
    (h : (clock_out now t td).res ≠ .ok) :
    (clock_out now t td).wrote = false ∧
      ((clock_out now t td).time_data = td ∨
        ((clock_out now t td).res = .notClockedInYet ∧
          (clock_out now t td).time_data = td ++ [newRow now])) := by
  unfold clock_out at h ⊢
  by_cases h0 : td = []
  · rw [if_pos h0] at h ⊢
    exact ⟨rfl, Or.inl rfl⟩
  · rw [if_neg h0] at h ⊢
    rcases goc_cases now td with hg | hg <;> rw [hg] at h ⊢ <;> dsimp only at h ⊢
    · cases hl : td.getLast? with
      | none =>
        rw [hl] at h
        exact ⟨rfl, Or.inl rfl⟩
      | some today_entry =>
        rw [hl] at h
        dsimp only at h ⊢
        cases hil : today_entry.intervals.getLast? with
        | none =>
          rw [hil] at h
          exact ⟨rfl, Or.inl rfl⟩
        | some last =>
          rw [hil] at h
          dsimp only at h ⊢
          by_cases hc : last.is_complete = true
          · rw [if_pos hc] at h ⊢
            exact ⟨rfl, Or.inl rfl⟩
          · rw [if_neg hc] at h ⊢
            cases hbt : last.beginT with
            | none =>
              rw [hbt] at h
              exact ⟨rfl, Or.inl rfl⟩
            | some b =>
              rw [hbt] at h
              dsimp only at h ⊢
              by_cases hlt : toSecs (t.getD now) < toSecs b
              · rw [if_pos hlt] at h ⊢
                exact ⟨rfl, Or.inl rfl⟩
              · rw [if_neg hlt] at h ⊢
                exact absurd rfl h
    · rw [List.getLast?_concat] at h ⊢
      dsimp only at h ⊢
      exact ⟨rfl, Or.inr ⟨rfl, rfl⟩⟩


theorem update_go_frame (now : DateTime) (s i : Bool) (answers : Nat → Bool) :
    ∀ (td : List TimeRow) (k : Nat),
      (update_go now s i answers k td).map (fun r => (r.date, r.intervals, r.notes))
        = td.map (fun r => (r.date, r.intervals, r.notes)) := by
  intro td
  induction td with
  | nil => intro k; rfl
  | cons r rs ih =>
    intro k
    unfold update_go
    dsimp only
    split_ifs <;> simp [List.map_cons, ih]


/-! ## The claims -/

/-- C1: `delta()` returns, case by case: for a closed interval the floor of the
signed second difference divided by 60; for an open interval begun on the
current date the floor of the seconds elapsed from begin to now divided by 60;
for an open interval begun on another date 0; and 0 when begin is absent.  The
two division cases carry the floor characterization of `Int` division by 60. -/
theorem C1_delta_cases (iv : TimeInterval) (now : DateTime) :
    (∀ b e, iv.beginT = some b → iv.endT = some e →
      iv.delta now = (toSecs e - toSecs b) / 60 ∧
      60 * ((toSecs e - toSecs b) / 60) ≤ toSecs e - toSecs b ∧
      toSecs e - toSecs b < 60 * ((toSecs e - toSecs b) / 60) + 60) ∧
    (∀ b, iv.beginT = some b → iv.endT = none → b.day = now.day →
      iv.delta now = (toSecs now - toSecs b) / 60 ∧
      60 * ((toSecs now - toSecs b) / 60) ≤ toSecs now - toSecs b ∧
      toSecs now - toSecs b < 60 * ((toSecs now - toSecs b) / 60) + 60) ∧
    (∀ b, iv.beginT = some b → iv.endT = none → b.day ≠ now.day → iv.delta now = 0) ∧
    (iv.beginT = none → iv.delta now = 0) := by
  refine ⟨?_, ?_, ?_, ?_⟩
  · intro b e hb he
    unfold TimeInterval.delta
    rw [hb, he]
    exact ⟨rfl, by omega, by omega⟩
  · intro b hb he hd
    unfold TimeInterval.delta
    rw [hb, he]
    dsimp only
    rw [if_pos hd]
    exact ⟨rfl, by omega, by omega⟩
  · intro b hb he hd
    unfold TimeInterval.delta
    rw [hb, he]
    dsimp only
    rw [if_neg hd]
  · intro hb
    unfold TimeInterval.delta
    rw [hb]


/-- C2 counterexample: with a store whose only record is yesterday's, clock-out
fails with "not clocked in yet" but has already appended a fresh empty
today-row to the in-memory store (`get_or_create_today` runs before the
failure check), so a user-precondition failure does mutate the store. -/
theorem C2_counterexample :
    (clock_out ⟨1, 0⟩ none [⟨⟨0, 0⟩, 0, [], []⟩]).res = ClockResult.notClockedInYet ∧
    (clock_out ⟨1, 0⟩ none [⟨⟨0, 0⟩, 0, [], []⟩]).time_data ≠ [⟨⟨0, 0⟩, 0, [], []⟩] := by
  constructor
  · rfl
  · decide


/-- C2 (amended): a failed clock-in leaves the store exactly as it was and
writes nothing; a failed clock-out writes nothing and leaves the store either
unchanged or — in the "not clocked in yet" case only — extended by the fresh
empty today-row that `get_or_create_today` appended before the check; no
pre-existing record is ever modified by a failed operation. -/
theorem C2_failure_frame (now : DateTime) (t : Option DateTime) (td : List TimeRow) :
    ((clock_in now t td).res ≠ .ok →
      (clock_in now t td).time_data = td ∧ (clock_in now t td).wrote = false) ∧
    ((clock_out now t td).res ≠ .ok →
      (clock_out now t td).wrote = false ∧
        ((clock_out now t td).time_data = td ∨
          ((clock_out now t td).res = .notClockedInYet ∧
            (clock_out now t td).time_data = td ++ [newRow now]))) :=
  ⟨clock_in_fail now t td, clock_out_fail now t td⟩


/-- C6: when today's record ends in an open interval begun at `b` and the
requested clock-out time is strictly earlier than `b`, clock-out returns the
"invalid clock-out time" outcome, leaves the store exactly as it was (the
interval stays open) and does not write. -/
theorem C6_invalid_clock_out (now t : DateTime) (td : List TimeRow)
    (today_entry : TimeRow) (hlast : td.getLast? = some today_entry)
    (htoday : today_entry.is_today now = true)
    (iv : TimeInterval) (hiv : today_entry.intervals.getLast? = some iv)
    (b : DateTime) (hb : iv.beginT = some b) (hopen : iv.endT = none)
    (hlt : toSecs t < toSecs b) :
    clock_out now (some t) td = ⟨.invalidClockOutTime, td, false⟩ := by
  have htdne : td ≠ [] := by
    intro hc
    rw [hc] at hlast
    cases hlast
  have hgoc : get_or_create_today now td = td := by
    unfold get_or_create_today
    rw [hlast]
    dsimp only
    rw [if_pos htoday]
  have hic : ¬(iv.is_complete = true) := by
    unfold TimeInterval.is_complete
    rw [hb, hopen]
    exact fun hc => Bool.false_ne_true hc
  unfold clock_out
  rw [if_neg htdne, hgoc]
  dsimp only
  rw [hlast]
  dsimp only
  rw [hiv]
  dsimp only
  rw [if_neg hic]
  rw [hb]
  dsimp only
  rw [if_pos (show toSecs ((some t).getD now) < toSecs b from hlt)]


/-- C6 witness. -/
theorem C6_invalid_clock_out_witness :
    clock_out ⟨5, 0⟩ (some ⟨5, 100⟩) [⟨⟨5, 0⟩, 0, [⟨some ⟨5, 200⟩, none⟩], []⟩]
      = ⟨.invalidClockOutTime, [⟨⟨5, 0⟩, 0, [⟨some ⟨5, 200⟩, none⟩], []⟩], false⟩ :=
  C6_invalid_clock_out ⟨5, 0⟩ ⟨5, 100⟩ _ _ rfl (by decide) _ rfl _ rfl rfl (by decide)


/-- C7: when today's record has at least one interval and its last interval is
open, a second clock-in returns the "already clocked in" outcome, leaves the
store exactly as it was (in particular the interval count is unchanged) and
does not write. -/
theorem C7_double_clock_in (now : DateTime) (t : Option DateTime) (td : List TimeRow)
    (today_entry : TimeRow) (hlast : td.getLast? = some today_entry)
    (htoday : today_entry.is_today now = true)
    (hopen : lastOpen today_entry.intervals = true) :
    clock_in now t td = ⟨.alreadyClockedIn, td, false⟩ := by
  have hgoc : get_or_create_today now td = td := by
    unfold get_or_create_today
    rw [hlast]
    dsimp only
    rw [if_pos htoday]
  unfold clock_in
  rw [hgoc]
  dsimp only
  rw [hlast]
  dsimp only
  rw [if_pos hopen]


/-- C7 witness. -/
theorem C7_double_clock_in_witness :
    clock_in ⟨5, 0⟩ none [⟨⟨5, 0⟩, 0, [⟨some ⟨5, 200⟩, none⟩], []⟩]
      = ⟨.alreadyClockedIn, [⟨⟨5, 0⟩, 0, [⟨some ⟨5, 200⟩, none⟩], []⟩], false⟩ :=
  C7_double_clock_in ⟨5, 0⟩ none _ _ rfl (by decide) (by decide)


/-- C8: a closed interval whose end lies strictly before its begin has a
strictly negative `delta()` — the floor (toward minus infinity) of the signed
second difference divided by 60 — and `calculate_total_time` adds that
negative contribution into the day's total unclamped. -/
theorem C8_negative_delta (iv : TimeInterval) (now : DateTime) (b e : DateTime)
    (hb : iv.beginT = some b) (he : iv.endT = some e) (hlt : toSecs e < toSecs b) :
    iv.delta now < 0 ∧
    60 * iv.delta now ≤ toSecs e - toSecs b ∧
    toSecs e - toSecs b < 60 * iv.delta now + 60 ∧
    (∀ (r : TimeRow) (pre post : List TimeInterval), r.intervals = pre ++ iv :: post →
      r.calculate_total_time now
        = (pre.map (fun j => j.delta now)).sum + iv.delta now
          + (post.map (fun j => j.delta now)).sum) := by
  have hd : iv.delta now = (toSecs e - toSecs b) / 60 := by
    unfold TimeInterval.delta
    rw [hb, he]
  refine ⟨by rw [hd]; omega, by rw [hd]; omega, by rw [hd]; omega, ?_⟩
  intro r pre post hr
  unfold TimeRow.calculate_total_time
  rw [hr, List.map_append, List.sum_append, List.map_cons, List.sum_cons]
  ring


/-- C8 witness. -/
theorem C8_negative_delta_witness :
    (⟨some ⟨0, 120⟩, some ⟨0, 30⟩⟩ : TimeInterval).delta ⟨0, 0⟩ < 0 ∧
    60 * (⟨some ⟨0, 120⟩, some ⟨0, 30⟩⟩ : TimeInterval).delta ⟨0, 0⟩
      ≤ toSecs ⟨0, 30⟩ - toSecs ⟨0, 120⟩ ∧
    toSecs ⟨0, 30⟩ - toSecs ⟨0, 120⟩
      < 60 * (⟨some ⟨0, 120⟩, some ⟨0, 30⟩⟩ : TimeInterval).delta ⟨0, 0⟩ + 60 ∧
    (∀ (r : TimeRow) (pre post : List TimeInterval),
      r.intervals = pre ++ (⟨some ⟨0, 120⟩, some ⟨0, 30⟩⟩ : TimeInterval) :: post →
      r.calculate_total_time ⟨0, 0⟩
        = (pre.map (fun j => j.delta ⟨0, 0⟩)).sum
          + (⟨some ⟨0, 120⟩, some ⟨0, 30⟩⟩ : TimeInterval).delta ⟨0, 0⟩
          + (post.map (fun j => j.delta ⟨0, 0⟩)).sum) :=
  C8_negative_delta ⟨some ⟨0, 120⟩, some ⟨0, 30⟩⟩ ⟨0, 0⟩ ⟨0, 120⟩ ⟨0, 30⟩ rfl rfl (by decide)


/-- C10: `update` touches nothing but the cached durations: for every record
the date, the interval sequence and the note sequence are exactly the same
after the recompute as before, whatever the flags and interactive answers. -/
theorem C10_update_frame (now : DateTime) (skip interactive : Bool)
    (answers : Nat → Bool) (td : List TimeRow) :
    ((update now skip interactive answers td).1).map (fun r => (r.date, r.intervals, r.notes))
      = td.map (fun r => (r.date, r.intervals, r.notes)) :=
  update_go_frame now skip interactive answers td 0


theorem clock_out_fresh (now T1 T2 : DateTime) (td : List TimeRow)
    (hlt : toSecs T1 < toSecs T2) (d1 : Int) :
    clock_out now (some T2) (td ++ [⟨now, d1, [⟨some T1, none⟩], []⟩])
      = ⟨.ok, td ++ [⟨now, (toSecs T2 - toSecs T1) / 60, [⟨some T1, some T2⟩], []⟩], true⟩ := by
  have hgoc : get_or_create_today now (td ++ [⟨now, d1, [⟨some T1, none⟩], []⟩])
      = td ++ [⟨now, d1, [⟨some T1, none⟩], []⟩] := by
    unfold get_or_create_today
    rw [List.getLast?_concat]
    dsimp only
    rw [if_pos (show (⟨now, d1, [⟨some T1, none⟩], []⟩ : TimeRow).is_today now = true
      from by simp [TimeRow.is_today])]
  have hsum : TimeRow.calculate_total_time ⟨now, d1, [⟨some T1, some T2⟩], []⟩ now
      = (toSecs T2 - toSecs T1) / 60 := by
    simp [TimeRow.calculate_total_time, TimeInterval.delta]
  unfold clock_out
  rw [if_neg (show ¬(td ++ [⟨now, d1, [⟨some T1, none⟩], []⟩] = []) from by simp), hgoc]
  dsimp only
  rw [List.getLast?_concat]
  dsimp only
  rw [show ([⟨some T1, none⟩] : List TimeInterval).getLast? = some ⟨some T1, none⟩ from rfl]
  dsimp only
  rw [if_neg (show ¬((⟨some T1, none⟩ : TimeInterval).is_complete = true)
    from fun hc => Bool.false_ne_true hc)]
  rw [if_neg (show ¬(toSecs ((some T2).getD now) < toSecs T1) from by
    show ¬(toSecs T2 < toSecs T1)
    omega)]
  rw [List.dropLast_concat]
  show OpResult.mk .ok
      (td ++ [⟨now, TimeRow.calculate_total_time ⟨now, d1, [⟨some T1, some T2⟩], []⟩ now,
        [⟨some T1, some T2⟩], []⟩]) true = _
  rw [hsum]


/-- C4: from a store with no record for today, clocking in at `T1` and out at
`T2 > T1` succeeds and appends today's record holding exactly one closed
interval `[T1, T2]` whose cached duration is the floor of the elapsed seconds
divided by 60 (the floor characterized by the bracketing inequalities). -/
theorem C4_clock_in_out (now T1 T2 : DateTime) (td : List TimeRow)
    (hlast : ∀ r, td.getLast? = some r → r.is_today now = false)
    (hlt : toSecs T1 < toSecs T2) :
    (clock_in now (some T1) td).res = .ok ∧
    (clock_out now (some T2) (clock_in now (some T1) td).time_data).res = .ok ∧
    (clock_out now (some T2) (clock_in now (some T1) td).time_data).time_data
      = td ++ [⟨now, (toSecs T2 - toSecs T1) / 60, [⟨some T1, some T2⟩], []⟩] ∧
    60 * ((toSecs T2 - toSecs T1) / 60) ≤ toSecs T2 - toSecs T1 ∧
    toSecs T2 - toSecs T1 < 60 * ((toSecs T2 - toSecs T1) / 60) + 60 := by
  have hgoc : get_or_create_today now td = td ++ [newRow now] := by
    unfold get_or_create_today
    cases hl : td.getLast? with
    | none => rfl
    | some r =>
      dsimp only
      rw [if_neg (show ¬(r.is_today now = true) from by simp [hlast r hl])]
  obtain ⟨d1, h1⟩ : ∃ d1, clock_in now (some T1) td
      = ⟨.ok, td ++ [⟨now, d1, [⟨some T1, none⟩], []⟩], true⟩ := by
    refine ⟨TimeRow.calculate_total_time ⟨now, 0, [⟨some T1, none⟩], []⟩ now, ?_⟩
    unfold clock_in
    rw [hgoc]
    dsimp only
    rw [List.getLast?_concat]
    dsimp only
    rw [if_neg (show ¬(lastOpen (newRow now).intervals = true)
      from fun hc => Bool.false_ne_true hc)]
    rw [List.dropLast_concat]
    rfl
  refine ⟨by rw [h1], ?_, ?_, by omega, by omega⟩
  · rw [h1]
    dsimp only
    rw [clock_out_fresh now T1 T2 td hlt d1]
  · rw [h1]
    dsimp only
    rw [clock_out_fresh now T1 T2 td hlt d1]


/-- C4 witness. -/
theorem C4_clock_in_out_witness :
    (clock_in ⟨1, 0⟩ (some ⟨1, 60⟩) []).res = .ok ∧
    (clock_out ⟨1, 0⟩ (some ⟨1, 150⟩) (clock_in ⟨1, 0⟩ (some ⟨1, 60⟩) []).time_data).res = .ok ∧
    (clock_out ⟨1, 0⟩ (some ⟨1, 150⟩) (clock_in ⟨1, 0⟩ (some ⟨1, 60⟩) []).time_data).time_data
      = [] ++ [⟨⟨1, 0⟩, (toSecs ⟨1, 150⟩ - toSecs ⟨1, 60⟩) / 60,
          [⟨some ⟨1, 60⟩, some ⟨1, 150⟩⟩], []⟩] ∧
    60 * ((toSecs ⟨1, 150⟩ - toSecs ⟨1, 60⟩) / 60) ≤ toSecs ⟨1, 150⟩ - toSecs ⟨1, 60⟩ ∧
    toSecs ⟨1, 150⟩ - toSecs ⟨1, 60⟩ < 60 * ((toSecs ⟨1, 150⟩ - toSecs ⟨1, 60⟩) / 60) + 60 :=
  C4_clock_in_out ⟨1, 0⟩ ⟨1, 60⟩ ⟨1, 150⟩ [] (fun r h => by cases h) (by decide)


theorem visitedDays_subset (today : Int) :
    ∀ ds, ∀ x ∈ visitedDays today ds, x ∈ ds
  | [], x, hx => absurd hx (List.not_mem_nil x)
  | d :: ds, x, hx => by
    unfold visitedDays at hx
    split_ifs at hx with h
    · rw [List.mem_singleton] at hx
      subst hx
      exact List.mem_cons_self _ _
    · rcases List.mem_cons.mp hx with hx | hx
      · subst hx
        exact List.mem_cons_self _ _
      · exact List.mem_cons_of_mem _ (visitedDays_subset today ds x hx)


theorem find_day_append_single (td : List TimeRow) (x : TimeRow) (d : Int)
    (hx : x.date.day ≠ d) : find_day (td ++ [x]) d = find_day td d := by
  unfold find_day
  induction td with
  | nil =>
    simp only [List.nil_append, List.find?]
    rw [show (x.date.day == d) = false from beq_eq_false_iff_ne.mpr hx]
  | cons r rs ih =>
    simp only [List.cons_append, List.find?]
    cases hr : (r.date.day == d) with
    | true => rfl
    | false => exact ih


theorem walk_days_spec (today : Int) :
    ∀ (ds : List Int), ds.Nodup → ∀ (td : List TimeRow) (total : Int),
      (walk_days today ds td total).visited = visitedDays today ds ∧
      (walk_days today ds td total).time_data
        = td ++ ((visitedDays today ds).filter
            (fun d => (find_day td d).isNone)).map (fun d => newRow ⟨d, 0⟩) := by
  intro ds
  induction ds with
  | nil =>
    intro _ td total
    exact ⟨rfl, by simp [walk_days, visitedDays]⟩
  | cons d ds ih =>
    intro hnd td total
    obtain ⟨hd, hnd'⟩ := List.nodup_cons.mp hnd
    unfold walk_days visitedDays
    cases hf : find_day td d with
    | some row =>
      dsimp only
      by_cases ht : d = today
      · rw [if_pos ht, if_pos ht]
        refine ⟨rfl, ?_⟩
        simp [List.filter_cons, hf]
      · rw [if_neg ht, if_neg ht]
        obtain ⟨ihv, ihd⟩ := ih hnd' td (total + row.duration_minutes)
        refine ⟨by dsimp only; rw [ihv], ?_⟩
        dsimp only
        rw [ihd]
        congr 1
        rw [List.filter_cons, if_neg (by rw [hf]; simp)]
    | none =>
      dsimp only
      by_cases ht : d = today
      · rw [if_pos ht, if_pos ht]
        refine ⟨rfl, ?_⟩
        rw [List.filter_cons, if_pos (by rw [hf]; simp)]
        simp
      · rw [if_neg ht, if_neg ht]
        obtain ⟨ihv, ihd⟩ := ih hnd' (td ++ [newRow ⟨d, 0⟩]) total
        refine ⟨by dsimp only; rw [ihv], ?_⟩
        dsimp only
        rw [ihd, List.append_assoc]
        have hcong : (visitedDays today ds).filter
              (fun x => (find_day (td ++ [newRow ⟨d, 0⟩]) x).isNone)
            = (visitedDays today ds).filter (fun x => (find_day td x).isNone) :=
          List.filter_congr (fun x hx => by
            rw [find_day_append_single td (newRow ⟨d, 0⟩) x
              (fun hc => hd (by
                rw [show d = x from hc]
                exact visitedDays_subset today ds x hx))])
        rw [hcong, List.filter_cons, if_pos (by rw [hf]; simp)]
        simp


/-- C5: the week and the month report walk over exactly the ascending
consecutive day lists shown (the `i`-th week day is `weekStart + i`, the
`i`-th month day the ordinal of day `i + 1`, and month ordinals advance by one
per day), visit them in order up to the stopping point (`visitedDays` cuts
the list just after today), and append a placeholder row with duration 0 and
no intervals for exactly the visited days that have no stored record. -/
theorem C5_report_walks (year week month : Int) (now : DateTime) (td : List TimeRow) :
    ((show_week year week now td).visited
       = visitedDays now.day
           ((List.range 7).map (fun i : Nat => weekStart year week + (i : Int))) ∧
     (show_week year week now td).time_data
       = td ++ ((visitedDays now.day
             ((List.range 7).map (fun i : Nat => weekStart year week + (i : Int)))).filter
             (fun d => (find_day td d).isNone)).map (fun d => newRow ⟨d, 0⟩)) ∧
    ((show_month year month now td).visited
       = visitedDays now.day
           ((List.range (daysInMonth year month).toNat).map
             (fun i : Nat => ymd2ord year month ((i : Int) + 1))) ∧
     (show_month year month now td).time_data
       = td ++ ((visitedDays now.day
             ((List.range (daysInMonth year month).toNat).map
               (fun i : Nat => ymd2ord year month ((i : Int) + 1)))).filter
             (fun d => (find_day td d).isNone)).map (fun d => newRow ⟨d, 0⟩)) ∧
    (∀ i : Int, ymd2ord year month (i + 1) = ymd2ord year month 1 + i) := by
  have hlin : ∀ i : Int, ymd2ord year month (i + 1) = ymd2ord year month 1 + i := by
    intro i
    unfold ymd2ord
    ring
  have hinjw : Function.Injective (fun i : Nat => weekStart year week + (i : Int)) := by
    intro a b hab
    simp only at hab
    omega
  have hinjm : Function.Injective (fun i : Nat => ymd2ord year month ((i : Int) + 1)) := by
    intro a b hab
    simp only at hab
    rw [hlin, hlin] at hab
    omega
  have hndw : ((List.range 7).map (fun i : Nat => weekStart year week + (i : Int))).Nodup :=
    List.Nodup.map hinjw (List.nodup_range 7)
  have hndm : ((List.range (daysInMonth year month).toNat).map
      (fun i : Nat => ymd2ord year month ((i : Int) + 1))).Nodup :=
    List.Nodup.map hinjm (List.nodup_range _)
  exact ⟨walk_days_spec now.day _ hndw td 0, walk_days_spec now.day _ hndm td 0, hlin⟩


/-- C3 (amended): serializing a day-record and parsing the line back
reproduces the record exactly — same calendar date (with the time-of-day reset
to midnight, as `parse_line` always builds), same cached duration, same
interval endpoints, same notes — provided the record is one the program
itself could have stored: date ordinal in the two-digit-year range, every
endpoint on the record's date at a whole minute (`"%H:%M"` keeps no seconds),
and every note timestamped on that date with text ending in `'.'` and free of
the reserved characters. -/
theorem C3_round_trip (r : TimeRow)
    (hz1 : 718798 ≤ r.date.day) (hz2 : r.date.day ≤ 755322)
    (hiv : ∀ iv ∈ r.intervals, ValidInterval r.date.day iv)
    (hnt : ∀ nt ∈ r.notes, ValidNote r.date.day nt) :
    parse_line (to_csv r)
      = .ok ⟨⟨r.date.day, 0⟩, r.duration_minutes, r.intervals, r.notes⟩ :=
  parse_line_to_csv r hz1 hz2 hiv hnt


/-- C3 counterexample: a record holding an interval that begins 30 seconds
after midnight serializes through `"%H:%M"` (seconds dropped) and parses back
with the begin time at exactly midnight, so the round trip does not reproduce
every record. -/
theorem C3_counterexample :
    parse_line (to_csv ⟨⟨719163, 0⟩, 0, [⟨some ⟨719163, 30⟩, none⟩], []⟩)
      ≠ .ok ⟨⟨719163, 0⟩, 0, [⟨some ⟨719163, 30⟩, none⟩], []⟩ := by
  have hivs : interval_str ⟨some ⟨719163, 30⟩, none⟩
      = interval_str ⟨some ⟨719163, 0⟩, none⟩ := by
    norm_num [interval_str, fmtEndpoint, format_time]
  have hcsv : to_csv ⟨⟨719163, 0⟩, 0, [⟨some ⟨719163, 30⟩, none⟩], []⟩
      = to_csv ⟨⟨719163, 0⟩, 0, [⟨some ⟨719163, 0⟩, none⟩], []⟩ := by
    unfold to_csv
    dsimp only
    rw [show List.map interval_str [(⟨some ⟨719163, 30⟩, none⟩ : TimeInterval)]
        = [interval_str ⟨some ⟨719163, 30⟩, none⟩] from rfl, hivs]
    rfl
  have hrt := parse_line_to_csv ⟨⟨719163, 0⟩, 0, [⟨some ⟨719163, 0⟩, none⟩], []⟩
    (by decide) (by decide)
    (fun iv hm => by
      rw [List.mem_singleton] at hm
      subst hm
      exact ⟨fun t ht => by
          injection ht with h
          subst h
          exact ⟨rfl, by decide, by decide, by decide⟩,
        fun t ht => by cases ht⟩)
    (fun nt hm => absurd hm (List.not_mem_nil nt))
  rw [hcsv, hrt]
  intro hc
  injection hc with h
  exact absurd h (by decide)


/-- C3 witness. -/
theorem C3_round_trip_witness :
    parse_line (to_csv ⟨⟨719163, 0⟩, 5, [⟨some ⟨719163, 32400⟩, some ⟨719163, 37800⟩⟩],
        [⟨['o', 'k', '.'], some ⟨719163, 3600⟩⟩]⟩)
      = .ok ⟨⟨719163, 0⟩, 5, [⟨some ⟨719163, 32400⟩, some ⟨719163, 37800⟩⟩],
          [⟨['o', 'k', '.'], some ⟨719163, 3600⟩⟩]⟩ :=
  C3_round_trip ⟨⟨719163, 0⟩, 5, [⟨some ⟨719163, 32400⟩, some ⟨719163, 37800⟩⟩],
      [⟨['o', 'k', '.'], some ⟨719163, 3600⟩⟩]⟩
    (by decide) (by decide)
    (fun iv hm => by
      rw [List.mem_singleton] at hm
      subst hm
      exact ⟨fun t ht => by
          injection ht with h
          subst h
          exact ⟨rfl, by decide, by decide, by decide⟩,
        fun t ht => by
          injection ht with h
          subst h
          exact ⟨rfl, by decide, by decide, by decide⟩⟩)
    (fun nt hm => by
      rw [List.mem_singleton] at hm
      subst hm
      exact ⟨⟨⟨719163, 3600⟩, rfl, rfl, by decide, by decide, by decide⟩,
        by decide, by decide, by decide, by decide⟩)


theorem format_time_getLast (t : DateTime) (h0 : 0 ≤ t.tod) :
    ∀ x, (format_time t).getLast? = some x → isSpaceChar x = false := by
  intro x hx
  have hpne : pad2 (t.tod % 3600 / 60) ≠ [] :=
    (pad2_spec _ (by omega) (by omega)).1
  rw [format_time, List.getLast?_append_of_ne_nil _ (List.cons_ne_nil ':' _),
    show (':' :: pad2 (t.tod % 3600 / 60)) = [':'] ++ pad2 (t.tod % 3600 / 60) from rfl,
    List.getLast?_append_of_ne_nil _ hpne] at hx
  exact digit_not_space x (pad2_all_digits _ (by omega) x (List.mem_of_mem_getLast? hx))


theorem splitSep_three (c : Char) (a b e : List Char)
    (ha : c ∉ a) (hb : c ∉ b) (he : c ∉ e) :
    splitSep c [] (a ++ c :: b ++ c :: e) = [a, b, e] := by
  have h1 : a ++ c :: b ++ c :: e = a ++ c :: (b ++ c :: e) := by
    simp [List.cons_append, List.append_assoc]
  rw [h1,
    show (a ++ c :: (b ++ c :: e)) = (a ++ c :: ([] ++ (b ++ c :: ([] ++ e)))) from rfl,
    splitSep_append c [] a _ ha, splitSep_append c [] b _ hb,
    splitSep_single c [] e (not_infix_of_head_not_mem c [] e he)]


/-- C9 counterexample: `sampleDurationLine` has exactly three `';'` fields and
its duration field `"1:30:00"` is rejected by the `"%H:%M"` reader, yet
`parse_line` succeeds on it (duration 90), so success does not require the
second field to be `H:MM`. -/
theorem C9_counterexample :
    parse_line sampleDurationLine
        = .ok ⟨⟨719163, 0⟩, 90, [⟨some ⟨719163, 32400⟩, some ⟨719163, 37800⟩⟩], []⟩ ∧
    splitSep ';' [] (pyStrip sampleDurationLine)
        = [formatDate 719163, '\t' :: ('1' :: ':' :: '3' :: '0' :: ':' :: '0' :: '0' :: []),
           '\t' :: interval_str ⟨some ⟨719163, 32400⟩, some ⟨719163, 37800⟩⟩] ∧
    parseHM (pyStrip ('\t' :: ('1' :: ':' :: '3' :: '0' :: ':' :: '0' :: '0' :: []))) = none := by
  have hb0 : ∀ u, (⟨some ⟨719163, 32400⟩, some ⟨719163, 37800⟩⟩ : TimeInterval).beginT = some u
      → 0 ≤ u.tod := by
    intro u hu
    injection hu with h
    subst h
    decide
  have he0 : ∀ u, (⟨some ⟨719163, 32400⟩, some ⟨719163, 37800⟩⟩ : TimeInterval).endT = some u
      → 0 ≤ u.tod := by
    intro u hu
    injection hu with h
    subst h
    decide
  have hfdne := formatDate_ne_nil 719163
  have hne1 : formatDate 719163
      ++ ';' :: '\t' :: ('1' :: ':' :: '3' :: '0' :: ':' :: '0' :: '0' :: []) ≠ [] :=
    fun hc => hfdne (List.append_eq_nil.mp hc).1
  have hhead : ∀ x, sampleDurationLine.head? = some x → isSpaceChar x = false := by
    intro x hx
    rw [sampleDurationLine, List.head?_append_of_ne_nil _ hne1,
      List.head?_append_of_ne_nil _ hfdne] at hx
    exact formatDate_head _ x hx
  have hftne : format_time ⟨719163, 37800⟩ ≠ [] :=
    format_time_ne_nil ⟨719163, 37800⟩ (by decide) (by decide)
  have hlastn : ∀ x, sampleDurationLine.getLast? = some x → isSpaceChar x = false := by
    intro x hx
    rw [sampleDurationLine,
      List.getLast?_append_of_ne_nil _
        (List.cons_ne_nil ';' ('\t' :: interval_str ⟨some ⟨719163, 32400⟩, some ⟨719163, 37800⟩⟩)),
      show (';' :: '\t' :: interval_str ⟨some ⟨719163, 32400⟩, some ⟨719163, 37800⟩⟩)
        = [';', '\t'] ++ interval_str ⟨some ⟨719163, 32400⟩, some ⟨719163, 37800⟩⟩ from rfl,
      List.getLast?_append_of_ne_nil _ (show interval_str ⟨some ⟨719163, 32400⟩,
        some ⟨719163, 37800⟩⟩ ≠ [] from by
          unfold interval_str
          intro hc
          exact (List.cons_ne_nil ' ' _) (List.append_eq_nil.mp hc).2),
      interval_str,
      List.getLast?_append_of_ne_nil _ (List.cons_ne_nil ' ' _),
      show (' ' :: '-' :: ' ' :: fmtEndpoint (⟨some ⟨719163, 32400⟩,
          some ⟨719163, 37800⟩⟩ : TimeInterval).endT)
        = [' ', '-', ' '] ++ format_time ⟨719163, 37800⟩ from rfl,
      List.getLast?_append_of_ne_nil _ hftne] at hx
    exact format_time_getLast ⟨719163, 37800⟩ (by decide) x hx
  have hpsline : pyStrip sampleDurationLine = sampleDurationLine :=
    pyStrip_eq_self _ hhead hlastn
  have hsp3 : splitSep ';' [] sampleDurationLine
      = [formatDate 719163, '\t' :: ('1' :: ':' :: '3' :: '0' :: ':' :: '0' :: '0' :: []),
         '\t' :: interval_str ⟨some ⟨719163, 32400⟩, some ⟨719163, 37800⟩⟩] := by
    rw [sampleDurationLine]
    exact splitSep_three ';' _ _ _
      (formatDate_not_mem 719163 ';' (by decide) (by decide) (Or.inl rfl))
      (by decide)
      (by
        intro hm
        rcases List.mem_cons.mp hm with hm | hm
        · exact absurd hm (by decide)
        · exact interval_str_not_mem _ hb0 he0 ';' (by decide) (by decide) (by decide)
            (by decide) (by decide) hm)
  have hps1 : pyStrip ('\t' :: ('1' :: ':' :: '3' :: '0' :: ':' :: '0' :: '0' :: []))
      = '1' :: ':' :: '3' :: '0' :: ':' :: '0' :: '0' :: [] := by decide
  have hsplit2 : splitSep ':' [] ('1' :: ':' :: '3' :: '0' :: ':' :: '0' :: '0' :: [])
      = [['1'], ['3', '0'], ['0', '0']] := by
    simp [splitSep_cons, splitSep_nil]
  have ht90 : to_minutes ('1' :: ':' :: '3' :: '0' :: ':' :: '0' :: '0' :: []) = .ok 90 := by
    unfold to_minutes
    rw [hsplit2]
    rfl
  have hv : ∀ iv ∈ [(⟨some ⟨719163, 32400⟩, some ⟨719163, 37800⟩⟩ : TimeInterval)],
      (∀ u, iv.beginT = some u → u.day = 719163 ∧ 0 ≤ u.tod ∧ u.tod < 86400 ∧ u.tod % 60 = 0) ∧
      (∀ u, iv.endT = some u → u.day = 719163 ∧ 0 ≤ u.tod ∧ u.tod < 86400 ∧ u.tod % 60 = 0) := by
    intro iv hm
    rw [List.mem_singleton] at hm
    subst hm
    exact ⟨fun u hu => by
        injection hu with h
        subst h
        exact ⟨rfl, by decide, by decide, by decide⟩,
      fun u hu => by
        injection hu with h
        subst h
        exact ⟨rfl, by decide, by decide, by decide⟩⟩
  refine ⟨?_, by rw [hpsline]; exact hsp3, by rw [hps1]; unfold parseHM; rw [hsplit2]⟩
  unfold parse_line
  rw [hpsline, hsp3]
  dsimp only
  rw [pyStrip_formatDate, parse_date_formatDate 719163 (by decide) (by decide)]
  dsimp only
  rw [hps1, ht90]
  dsimp only
  rw [show ('\t' :: interval_str ⟨some ⟨719163, 32400⟩, some ⟨719163, 37800⟩⟩)
      = '\t' :: pyJoin [',', '\t'] (List.map interval_str
          [(⟨some ⟨719163, 32400⟩, some ⟨719163, 37800⟩⟩ : TimeInterval)]) from rfl,
    parse_intervals_field 719163 [⟨some ⟨719163, 32400⟩, some ⟨719163, 37800⟩⟩] hv]


theorem parse_notes_ok_shape (day : Int) :
    ∀ (fs : List (List Char)) (ns : List Note), parse_notes day fs = .ok ns →
      ∀ f ∈ fs, pyStrip f ≠ [] → ∃ tm tx, splitSep ']' [' '] (pyStrip f) = [tm, tx]
  | [], _, _, f, hf, _ => absurd hf (List.not_mem_nil f)
  | f0 :: fs, ns, h, f, hf, hne => by
    rw [parse_notes] at h
    by_cases h0 : pyStrip f0 = []
    · rw [if_pos h0] at h
      rcases List.mem_cons.mp hf with hfeq | hfmem
      · subst hfeq
        exact absurd h0 hne
      · exact parse_notes_ok_shape day fs ns h f hfmem hne
    · rw [if_neg h0] at h
      rcases List.mem_cons.mp hf with hfeq | hfmem
      · subst hfeq
        rcases hsp : splitSep ']' [' '] (pyStrip f) with _ | ⟨tm, _ | ⟨tx, _ | _⟩⟩
        · rw [hsp] at h
          cases h
        · rw [hsp] at h
          cases h
        · exact ⟨tm, tx, rfl⟩
        · rw [hsp] at h
          cases h
      · rcases hsp : splitSep ']' [' '] (pyStrip f0) with _ | ⟨tm, _ | ⟨tx, _ | _⟩⟩
          <;> rw [hsp] at h <;> dsimp only at h
        · cases h
        · cases h
        · cases hpt : parse_time (tm.drop 1) day with
          | error e =>
            rw [hpt] at h
            cases h
          | ok tv =>
            rw [hpt] at h
            dsimp only at h
            cases hpn : parse_notes day fs with
            | error e =>
              rw [hpn] at h
              cases h
            | ok ns' =>
              exact parse_notes_ok_shape day fs ns' hpn f hfmem hne
        · cases h


theorem parse_intervals_skip (day : Int) (f : List Char) (fs : List (List Char))
    (h : (splitSep ' ' ['-', ' '] f).length ≠ 2) :
    parse_intervals day (f :: fs) = parse_intervals day fs := by
  rw [parse_intervals]
  rcases hsp : splitSep ' ' ['-', ' '] f with _ | ⟨b0, _ | ⟨e0, _ | _⟩⟩
  · rfl
  · rfl
  · exact absurd (show (splitSep ' ' ['-', ' '] f).length = 2 from by rw [hsp]; rfl) h
  · rfl


theorem parse_notes_badfrag (day : Int) (f : List Char) (fs : List (List Char))
    (h0 : pyStrip f ≠ []) (h : (splitSep ']' [' '] (pyStrip f)).length ≠ 2) :
    parse_notes day (f :: fs) = .error .valueError := by
  rw [parse_notes]
  rw [if_neg h0]
  rcases hsp : splitSep ']' [' '] (pyStrip f) with _ | ⟨tm, _ | ⟨tx, _ | _⟩⟩
  · rfl
  · rfl
  · exact absurd (show (splitSep ']' [' '] (pyStrip f)).length = 2 from by rw [hsp]; rfl) h
  · rfl


/-- C9 (amended): `parse_line` is partial, but what it checks of the second
field is `to_minutes` — two `':'`-chunks read by `int`, extra chunks ignored —
not the `H:MM` shape of `strptime("%H:%M")`.  Success requires at least three
`';'` fields with the date, the duration and the intervals parsing, and every
non-blank note fragment of a fourth field splitting in exactly two on `"] "`;
a line of one or two fields whose leading fields parse fails with the
uncaught `IndexError`; an interval fragment that does not split in two on
`" - "` is skipped (recoverable), while a non-blank note fragment that does
not split in two is an uncaught `ValueError`. -/
theorem C9_parse_line_partial (line : List Char) :
    (∀ r, parse_line line = .ok r →
      ∃ p0 p1 p2 rest, splitSep ';' [] (pyStrip line) = p0 :: p1 :: p2 :: rest ∧
        parse_date (pyStrip p0) = some r.date.day ∧
        to_minutes (pyStrip p1) = .ok r.duration_minutes ∧
        parse_intervals r.date.day (splitSep ',' ['\t'] p2) = .ok r.intervals ∧
        ∀ p3 rest2, rest = p3 :: rest2 →
          ∀ f ∈ splitSep '\t' [] p3, pyStrip f ≠ [] →
            ∃ tm tx, splitSep ']' [' '] (pyStrip f) = [tm, tx]) ∧
    (∀ p0 z, splitSep ';' [] (pyStrip line) = [p0] →
      parse_date (pyStrip p0) = some z → parse_line line = .error .indexError) ∧
    (∀ p0 p1 z m, splitSep ';' [] (pyStrip line) = [p0, p1] →
      parse_date (pyStrip p0) = some z → to_minutes (pyStrip p1) = .ok m →
      parse_line line = .error .indexError) ∧
    (∀ (day : Int) (f : List Char) (fs : List (List Char)),
      (splitSep ' ' ['-', ' '] f).length ≠ 2 →
      parse_intervals day (f :: fs) = parse_intervals day fs) ∧
    (∀ (day : Int) (f : List Char) (fs : List (List Char)), pyStrip f ≠ [] →
      (splitSep ']' [' '] (pyStrip f)).length ≠ 2 →
      parse_notes day (f :: fs) = .error .valueError) := by
  refine ⟨?_, ?_, ?_, parse_intervals_skip, parse_notes_badfrag⟩
  · intro r hok
    unfold parse_line at hok
    rcases hsp : splitSep ';' [] (pyStrip line) with _ | ⟨p0, rest1⟩
    · rw [hsp] at hok
      cases hok
    · rw [hsp] at hok
      dsimp only at hok
      cases hpd : parse_date (pyStrip p0) with
      | none =>
        rw [hpd] at hok
        cases hok
      | some z =>
        rw [hpd] at hok
        dsimp only at hok
        rcases rest1 with _ | ⟨p1, rest2⟩
        · cases hok
        · dsimp only at hok
          cases htm : to_minutes (pyStrip p1) with
          | error e =>
            rw [htm] at hok
            cases hok
          | ok m =>
            rw [htm] at hok
            dsimp only at hok
            rcases rest2 with _ | ⟨p2, rest3⟩
            · cases hok
            · dsimp only at hok
              cases hpi : parse_intervals z (splitSep ',' ['\t'] p2) with
              | error e =>
                rw [hpi] at hok
                cases hok
              | ok ivs =>
                rw [hpi] at hok
                dsimp only at hok
                rcases rest3 with _ | ⟨p3, rest4⟩
                · injection hok with hok'
                  subst hok'
                  refine ⟨p0, p1, p2, [], rfl, hpd, htm, hpi, ?_⟩
                  intro q3 qrest hco
                  cases hco
                · dsimp only at hok
                  cases hpn : parse_notes z (splitSep '\t' [] p3) with
                  | error e =>
                    rw [hpn] at hok
                    cases hok
                  | ok ns =>
                    rw [hpn] at hok
                    dsimp only at hok
                    injection hok with hok'
                    subst hok'
                    refine ⟨p0, p1, p2, p3 :: rest4, rfl, hpd, htm, hpi, ?_⟩
                    intro q3 qrest hco
                    injection hco with h1 h2
                    subst h1
                    exact parse_notes_ok_shape z _ ns hpn
  · intro p0 z hsp1 hpd
    unfold parse_line
    rw [hsp1]
    dsimp only
    rw [hpd]
  · intro p0 p1 z m hsp1 hpd htm
    unfold parse_line
    rw [hsp1]
    dsimp only
    rw [hpd]
    dsimp only
    rw [htm]
